import Mathlib

/-!
Verification of the Text-PAIR query API (src/api/text_pair.py).

The development shallowly embeds the pure core of the program:

* the filter token parser and query compiler (`query_builder`, lines 148-207),
* the pagination engine of `search_alignments` (lines 262-316),
* the time-series bucketing of `generate_time_series` (lines 446-467),
* the length-bucket facet counting of `facets` (lines 495-516),
* the group resolution of `get_passage_group` (lines 543-598).

Python strings are embedded as `List Char` where character-level processing
matters and as `String` for assembled SQL text; dictionaries with insertion
order (Python `dict`, `OrderedDict`, `Counter`) are embedded as association
lists updated in place.
-/

namespace TextPair

/-- Whitespace characters recognised by Python's `str.strip()` / `str.split()`
(ASCII subset; the program only ever feeds it query-string values). -/
def isPySpace (c : Char) : Bool :=
  c = ' ' || c = '\t' || c = '\n' || c = '\r' || c = '\x0b' || c = '\x0c'

/-- Word characters of the regex class `\w` used by `BOOLEAN_ARGS`
(ASCII subset: letters, digits and underscore). -/
def isWordChar (c : Char) : Bool :=
  ('a' ≤ c && c ≤ 'z') || ('A' ≤ c && c ≤ 'Z') || ('0' ≤ c && c ≤ '9') || c = '_'

/-- Python `value.strip()`: drop whitespace from both ends. -/
def pyStrip (s : List Char) : List Char :=
  ((s.dropWhile isPySpace).reverse.dropWhile isPySpace).reverse

/-- Python `str.split()` (no argument): split on whitespace runs, no empty parts. -/
def pySplitAux : Nat → List Char → List (List Char)
  | 0, _ => []
  | n + 1, s =>
    let s' := s.dropWhile isPySpace
    if s' = [] then []
    else s'.takeWhile (fun c => !isPySpace c) :: pySplitAux n (s'.dropWhile (fun c => !isPySpace c))

def pySplit (s : List Char) : List (List Char) := pySplitAux (s.length + 1) s

/-- Python `" ".join(parts)`. -/
def joinSpace (parts : List (List Char)) : List Char := List.intercalate [' '] parts

/-- One token produced by `BOOLEAN_ARGS.findall`: the regex
`(NOT \w+)|(OR \w+)|(\w+)|("")` with its four capture groups. -/
inductive Tok where
  | notTok (w : List Char)
  | orTok (w : List Char)
  | word (w : List Char)
  | emptyQuote
deriving DecidableEq, Repr

/-- Match the alternative `NOT \w+` at the head of `s`. -/
def notMatch (s : List Char) : Option (List Char × List Char) :=
  if s.take 4 = ['N', 'O', 'T', ' '] then
    let r := s.drop 4
    let w := r.takeWhile isWordChar
    if w = [] then none else some (w, r.dropWhile isWordChar)
  else none

/-- Match the alternative `OR \w+` at the head of `s`. -/
def orMatch (s : List Char) : Option (List Char × List Char) :=
  if s.take 3 = ['O', 'R', ' '] then
    let r := s.drop 3
    let w := r.takeWhile isWordChar
    if w = [] then none else some (w, r.dropWhile isWordChar)
  else none

/-- Match the alternative `\w+` at the head of `s`. -/
def wordMatch (s : List Char) : Option (List Char × List Char) :=
  let w := s.takeWhile isWordChar
  if w = [] then none else some (w, s.dropWhile isWordChar)

/-- `re.findall` scanning for `BOOLEAN_ARGS`: at each position try the four
alternatives in order; on failure advance one character.  The fuel argument is
the length of the scanned list, which bounds the number of steps since every
step consumes at least one character. -/
def findTokensAux : Nat → List Char → List Tok
  | 0, _ => []
  | _ + 1, [] => []
  | n + 1, c :: rest =>
    match notMatch (c :: rest) with
    | some (w, r) => Tok.notTok w :: findTokensAux n r
    | none =>
      match orMatch (c :: rest) with
      | some (w, r) => Tok.orTok w :: findTokensAux n r
      | none =>
        match wordMatch (c :: rest) with
        | some (w, r) => Tok.word w :: findTokensAux n r
        | none =>
          if (c :: rest).take 2 = ['"', '"'] then
            Tok.emptyQuote :: findTokensAux n ((c :: rest).drop 2)
          else findTokensAux n rest

/-- `BOOLEAN_ARGS.findall(value)` (line 157). -/
def findTokens (s : List Char) : List Tok := findTokensAux s.length s

/-- The string `value` is rebound to inside the token loop (lines 158-165):
the text of whichever capture group matched. -/
def tokValue : Tok → List Char
  | .notTok w => 'N' :: 'O' :: 'T' :: ' ' :: w
  | .orTok w => 'O' :: 'R' :: ' ' :: w
  | .word w => w
  | .emptyQuote => ['"', '"']

/-- Lines 166-183: turn one (rebound) token value into a predicate fragment and
the bound values it consumes.  The quoted branch with content (lines 170-172)
is kept even though the tokenizer can never produce a value reaching it. -/
def textFragment (field : String) (v : List Char) : String × List String :=
  if v.take 1 = ['"'] then
    if v = ['"', '"'] then (field ++ " = %s", [""])
    else (field ++ "=%s", [String.mk (v.drop 1).dropLast])
  else if v.take 4 = ['N', 'O', 'T', ' '] then
    let splitValue := pyStrip (joinSpace ((pySplit v).drop 1))
    (field ++ " !~* %s", ["\\m" ++ String.mk splitValue ++ "\\M"])
  else
    (field ++ " ~* %s", ["\\m" ++ String.mk v ++ "\\M"])

/-- All fragments contributed by one TEXT field (the token loop, lines 157-184). -/
def textFragments (field : String) (v : List Char) : List String × List String :=
  let frs := (findTokens v).map fun t => textFragment field (tokValue t)
  (frs.map Prod.fst, frs.flatMap Prod.snd)

/-- Python `value.replace('"', "")` (line 186). -/
def stripQuotes (v : List Char) : List Char := v.filter (fun c => c ≠ '"')

/-- Python `re.split(r"(-)", value)`: split on `-`, keeping the separators. -/
def dashSplit : List Char → List (List Char)
  | [] => [[]]
  | c :: r =>
    if c = '-' then [] :: ['-'] :: dashSplit r
    else
      match dashSplit r with
      | s :: rest => (c :: s) :: rest
      | [] => [[c]]

/-- Lines 185-201: the INTEGER/FLOAT branch.  Returns the fragment list
(always a singleton) and bound values. -/
def numericFragment (field : String) (v0 : List Char) : List String × List String :=
  let v := stripQuotes v0
  if '-' ∈ v then
    let vs := (dashSplit v).filter (fun s => s ≠ [])
    if vs.head? = some ['-'] then
      ([field ++ " <= %s"], [String.mk (vs.getD 1 [])])
    else if vs.getLast? = some ['-'] then
      ([field ++ " >= %s"], [String.mk (vs.getD 0 [])])
    else
      ([field ++ " BETWEEN %s AND %s"], [String.mk (vs.getD 0 []), String.mk (vs.getD 2 [])])
  else
    ([field ++ " = %s"], [String.mk v])

/-- Python `field_types.get(field, "TEXT")`: first-match association lookup
with a default. -/
def lookupType : List (String × String) → String → Option String
  | [], _ => none
  | (k, v) :: rest, f => if k = f then some v else lookupType rest f

/-- Python `str.upper()` (ASCII), working on the character list so that the
kernel can evaluate it. -/
def pyUpper (s : String) : String := String.mk (s.data.map Char.toUpper)

/-- `field_types.get(field, "TEXT").upper()` (line 154). -/
def fieldTypeOf (fieldTypes : List (String × String)) (field : String) : String :=
  pyUpper ((lookupType fieldTypes field).getD "TEXT")

/-- The main loop of `query_builder` (lines 152-203): accumulate predicate
fragments and bound values across all filter fields, in request order.
Fields whose resolved type is neither TEXT nor INTEGER/FLOAT are skipped. -/
def sqlParts (fieldTypes : List (String × String)) : List (String × String) → List String × List String
  | [] => ([], [])
  | (field, value) :: rest =>
    let ftype := fieldTypeOf fieldTypes field
    let tail := sqlParts fieldTypes rest
    if ftype = "TEXT" then
      let fr := textFragments field (pyStrip value.data)
      (fr.1 ++ tail.1, fr.2 ++ tail.2)
    else if ftype = "INTEGER" ∨ ftype = "FLOAT" then
      let fr := numericFragment field (pyStrip value.data)
      (fr.1 ++ tail.1, fr.2 ++ tail.2)
    else
      tail

/-- Unfolding equation of `sqlParts` on a nonempty request list. -/
lemma sqlParts_cons (ft : List (String × String)) (field v : String)
    (rest : List (String × String)) :
    sqlParts ft ((field, v) :: rest)
      = if fieldTypeOf ft field = "TEXT" then
          ((textFragments field (pyStrip v.data)).1 ++ (sqlParts ft rest).1,
           (textFragments field (pyStrip v.data)).2 ++ (sqlParts ft rest).2)
        else if fieldTypeOf ft field = "INTEGER" ∨ fieldTypeOf ft field = "FLOAT" then
          ((numericFragment field (pyStrip v.data)).1 ++ (sqlParts ft rest).1,
           (numericFragment field (pyStrip v.data)).2 ++ (sqlParts ft rest).2)
        else sqlParts ft rest := rfl

/-- Python `" AND ".join(sql_fields)`. -/
def joinAnd : List String → String
  | [] => ""
  | [x] => x
  | x :: xs => x ++ " AND " ++ joinAnd xs

/-- `query_builder(query_args, other_args, field_types)` (lines 148-207):
returns the conjunctive WHERE clause and the ordered bound-value list.
`banality` is `other_args.banality` (default `""` when absent). -/
def query_builder (queryArgs fieldTypes : List (String × String)) (banality : String) :
    String × List String :=
  let parts := sqlParts fieldTypes queryArgs
  let parts :=
    if banality ≠ "" then (parts.1 ++ ["banality=%s"], parts.2 ++ [banality])
    else parts
  (joinAnd parts.1, parts.2)

/-- Number of occurrences of the placeholder `%s` in a character list
(the two characters are distinct, so occurrences cannot overlap). -/
def countPS : List Char → Nat
  | [] => 0
  | c :: r => (if c = '%' ∧ r.head? = some 's' then 1 else 0) + countPS r

/-- Placeholder count of a `String`. -/
def countPSStr (s : String) : Nat := countPS s.data

/-! ### Generic list helpers -/

lemma takeWhile_all {α} (p : α → Bool) :
    ∀ l : List α, (∀ c ∈ l, p c = true) → l.takeWhile p = l := by
  intro l h
  induction l with
  | nil => rfl
  | cons a t ih =>
    have ha : p a = true := h a (by simp)
    have ht := ih fun c hc => h c (by simp [hc])
    simp [List.takeWhile_cons, ha, ht]

lemma dropWhile_all {α} (p : α → Bool) :
    ∀ l : List α, (∀ c ∈ l, p c = true) → l.dropWhile p = [] := by
  intro l h
  induction l with
  | nil => rfl
  | cons a t ih =>
    rw [List.dropWhile_cons, h a (by simp)]
    exact ih fun c hc => h c (by simp [hc])

lemma dropWhile_none {α} (p : α → Bool) :
    ∀ l : List α, (∀ c ∈ l, p c = false) → l.dropWhile p = l := by
  intro l h
  cases l with
  | nil => rfl
  | cons a t => simp [List.dropWhile_cons, h a (by simp)]

lemma mem_takeWhile {α} (p : α → Bool) :
    ∀ l : List α, ∀ c ∈ l.takeWhile p, p c = true := by
  intro l
  induction l with
  | nil => simp
  | cons a t ih =>
    intro c hc
    rw [List.takeWhile_cons] at hc
    by_cases hp : p a = true
    · rw [if_pos hp] at hc
      rcases List.mem_cons.mp hc with rfl | hc
      · exact hp
      · exact ih c hc
    · rw [if_neg hp] at hc
      exact absurd hc (List.not_mem_nil c)

/-! ### Character class lemmas -/

lemma not_space_of_word {c : Char} (h : isWordChar c = true) : isPySpace c = false := by
  by_contra hs
  rw [Bool.not_eq_false] at hs
  have hd : c = ' ' ∨ c = '\t' ∨ c = '\n' ∨ c = '\r' ∨ c = '\x0b' ∨ c = '\x0c' := by
    simpa [isPySpace, or_assoc] using hs
  rcases hd with rfl | rfl | rfl | rfl | rfl | rfl <;> exact absurd h (by decide)

lemma digit_word {c : Char} (h : c.isDigit = true) : isWordChar c = true := by
  simp only [Char.isDigit, Bool.and_eq_true, decide_eq_true_eq] at h
  simp only [isWordChar, Bool.or_eq_true, Bool.and_eq_true, decide_eq_true_eq]
  tauto

lemma digit_ne_dash {c : Char} (h : c.isDigit = true) : c ≠ '-' := by
  rintro rfl; exact absurd h (by decide)

lemma digit_ne_quote {c : Char} (h : c.isDigit = true) : c ≠ '"' := by
  rintro rfl; exact absurd h (by decide)

/-! ### `pyStrip` lemmas -/

lemma pyStrip_of_no_space (s : List Char) (h : ∀ c ∈ s, isPySpace c = false) :
    pyStrip s = s := by
  unfold pyStrip
  rw [dropWhile_none _ s h, dropWhile_none _ s.reverse (fun c hc => h c (List.mem_reverse.mp hc)),
    List.reverse_reverse]

lemma dropWhile_space_reverse_append (l r : List Char) (hne : l ≠ [])
    (h : ∀ c ∈ l, isPySpace c = false) :
    (l.reverse ++ r).dropWhile isPySpace = l.reverse ++ r := by
  induction l generalizing r with
  | nil => exact absurd rfl hne
  | cons a t ih =>
    rw [List.reverse_cons, List.append_assoc]
    cases ht : t with
    | nil =>
      subst ht
      simp only [List.reverse_nil, List.nil_append, List.singleton_append]
      simp [List.dropWhile_cons, h a (by simp)]
    | cons b u =>
      subst ht
      have := ih ([a] ++ r) (by simp) (fun c hc => h c (by simp [hc]))
      simpa using this

/-! ### Placeholder counting lemmas -/

lemma countPS_cons (c : Char) (l : List Char) :
    countPS (c :: l) = (if c = '%' ∧ l.head? = some 's' then 1 else 0) + countPS l := rfl

lemma countPS_append_right (a b : List Char) (hb : b.head? ≠ some 's') :
    countPS (a ++ b) = countPS a + countPS b := by
  induction a with
  | nil => simp [countPS]
  | cons c t ih =>
    cases t with
    | nil =>
      have hx : ¬(c = '%' ∧ b.head? = some 's') := fun hx => hb hx.2
      show countPS (c :: b) = countPS [c] + countPS b
      simp [countPS_cons, hx, countPS]
    | cons d u =>
      rw [List.cons_append, countPS_cons, countPS_cons c (d :: u), ih]
      have hh : ((d :: u) ++ b).head? = (d :: u).head? := rfl
      rw [hh]
      ring

lemma countPS_append_left (a b : List Char) (ha : a.getLast? ≠ some '%') :
    countPS (a ++ b) = countPS a + countPS b := by
  induction a with
  | nil => simp [countPS]
  | cons c t ih =>
    cases t with
    | nil =>
      have hc : ¬(c = '%') := by simpa using ha
      show countPS (c :: b) = countPS [c] + countPS b
      simp [countPS_cons, hc, countPS]
    | cons d u =>
      have ha' : (d :: u).getLast? ≠ some '%' := by
        rwa [List.getLast?_cons_cons] at ha
      rw [List.cons_append, countPS_cons, countPS_cons c (d :: u), ih ha']
      have hh : ((d :: u) ++ b).head? = (d :: u).head? := rfl
      rw [hh]
      ring

lemma countPS_joinAnd : ∀ l : List String,
    countPSStr (joinAnd l) = (l.map fun s => countPS s.data).sum := by
  intro l
  induction l with
  | nil => simp [joinAnd, countPSStr, countPS]
  | cons x xs ih =>
    cases xs with
    | nil => simp [joinAnd, countPSStr]
    | cons y t =>
      show countPS (x ++ " AND " ++ joinAnd (y :: t)).data = _
      rw [String.data_append, String.data_append, List.append_assoc]
      rw [countPS_append_right _ _ (by simp [String.data_append])]
      rw [countPS_append_left _ _ (by decide)]
      rw [(by decide : countPS (" AND ").data = 0)]
      simpa using ih

lemma countPS_field_suffix (field suffix : String) (h1 : suffix.data.head? ≠ some 's') :
    countPS (field ++ suffix).data = countPS field.data + countPS suffix.data := by
  rw [String.data_append]
  exact countPS_append_right _ _ h1

/-- Every branch of the TEXT fragment builder emits exactly one placeholder and
one bound value. -/
lemma countPS_textFragment (field : String) (v : List Char) :
    countPS (textFragment field v).1.data = countPS field.data + 1 ∧
      (textFragment field v).2.length = 1 := by
  unfold textFragment
  split_ifs with h1 h2 h3
  · exact ⟨by rw [countPS_field_suffix field " = %s" (by decide),
      (by decide : countPS (" = %s").data = 1)], rfl⟩
  · exact ⟨by rw [countPS_field_suffix field "=%s" (by decide),
      (by decide : countPS ("=%s").data = 1)], rfl⟩
  · exact ⟨by rw [countPS_field_suffix field " !~* %s" (by decide),
      (by decide : countPS (" !~* %s").data = 1)], rfl⟩
  · exact ⟨by rw [countPS_field_suffix field " ~* %s" (by decide),
      (by decide : countPS (" ~* %s").data = 1)], rfl⟩

lemma countPS_textFragments (field : String) (v : List Char) (hf : countPS field.data = 0) :
    ((textFragments field v).1.map fun s => countPS s.data).sum
      = (textFragments field v).2.length := by
  unfold textFragments
  induction findTokens v with
  | nil => simp
  | cons t ts ih =>
    have h := countPS_textFragment field (tokValue t)
    simp only [List.map_cons, List.map_map, List.flatMap_cons, List.sum_cons,
      List.length_append, Function.comp] at *
    rw [h.1, h.2, hf, ih]

lemma countPS_numericFragment (field : String) (v0 : List Char) (hf : countPS field.data = 0) :
    ((numericFragment field v0).1.map fun s => countPS s.data).sum
      = (numericFragment field v0).2.length := by
  unfold numericFragment
  dsimp only
  split_ifs with h1 h2 h3
  · simp only [List.map_cons, List.map_nil, List.sum_cons, List.sum_nil, List.length_cons,
      List.length_nil]
    rw [countPS_field_suffix field " <= %s" (by decide),
      (by decide : countPS (" <= %s").data = 1), hf]
    omega
  · simp only [List.map_cons, List.map_nil, List.sum_cons, List.sum_nil, List.length_cons,
      List.length_nil]
    rw [countPS_field_suffix field " >= %s" (by decide),
      (by decide : countPS (" >= %s").data = 1), hf]
    omega
  · simp only [List.map_cons, List.map_nil, List.sum_cons, List.sum_nil, List.length_cons,
      List.length_nil]
    rw [countPS_field_suffix field " BETWEEN %s AND %s" (by decide),
      (by decide : countPS (" BETWEEN %s AND %s").data = 2), hf]
    omega
  · simp only [List.map_cons, List.map_nil, List.sum_cons, List.sum_nil, List.length_cons,
      List.length_nil]
    rw [countPS_field_suffix field " = %s" (by decide),
      (by decide : countPS (" = %s").data = 1), hf]
    omega

lemma sqlParts_count (ft : List (String × String)) :
    ∀ args : List (String × String), (∀ f ∈ args.map Prod.fst, countPS f.data = 0) →
      ((sqlParts ft args).1.map fun s => countPS s.data).sum = (sqlParts ft args).2.length := by
  intro args
  induction args with
  | nil => intro _; simp [sqlParts]
  | cons p rest ih =>
    intro h
    obtain ⟨f, v⟩ := p
    have hf : countPS f.data = 0 := h f (by simp)
    have hrest := ih fun g hg => h g (by simp [hg])
    show ((sqlParts ft ((f, v) :: rest)).1.map fun s => countPS s.data).sum
        = (sqlParts ft ((f, v) :: rest)).2.length
    unfold sqlParts
    dsimp only
    split_ifs with h1 h2 <;>
      simp [List.map_append, List.sum_append, List.length_append,
        countPS_textFragments _ _ hf, countPS_numericFragment _ _ hf, hrest]

/-- The placeholder/value-count invariant of the whole compiled clause. -/
lemma query_builder_count (args ft : List (String × String)) (ban : String)
    (h : ∀ f ∈ args.map Prod.fst, countPS f.data = 0) :
    countPSStr (query_builder args ft ban).1 = (query_builder args ft ban).2.length := by
  unfold query_builder
  split_ifs with hb <;>
    simp [countPS_joinAnd, List.map_append, List.sum_append, List.length_append,
      sqlParts_count ft args h, (by decide : countPS ("banality=%s").data = 1)]

/-- `pyStrip` fixes a string of the form `NOT w` when `w` is a nonempty word. -/
lemma pyStrip_notForm (w : List Char) (hne : w ≠ [])
    (hw : ∀ c ∈ w, isWordChar c = true) :
    pyStrip ('N' :: 'O' :: 'T' :: ' ' :: w) = 'N' :: 'O' :: 'T' :: ' ' :: w := by
  unfold pyStrip
  have h1 : ('N' :: 'O' :: 'T' :: ' ' :: w).dropWhile isPySpace
      = 'N' :: 'O' :: 'T' :: ' ' :: w := by
    rw [List.dropWhile_cons, (by decide : isPySpace 'N' = false)]
    simp
  rw [h1]
  have h2 : ('N' :: 'O' :: 'T' :: ' ' :: w).reverse = w.reverse ++ [' ', 'T', 'O', 'N'] := by
    simp
  rw [h2, dropWhile_space_reverse_append w [' ', 'T', 'O', 'N'] hne
    (fun c hc => not_space_of_word (hw c hc))]
  simp

/-! ### Token well-formedness -/

/-- Every token emitted by the scanner carries a nonempty all-word-character
capture (the quoted-empty token carries none). -/
def TokWF : Tok → Prop
  | .notTok w => w ≠ [] ∧ ∀ c ∈ w, isWordChar c = true
  | .orTok w => w ≠ [] ∧ ∀ c ∈ w, isWordChar c = true
  | .word w => w ≠ [] ∧ ∀ c ∈ w, isWordChar c = true
  | .emptyQuote => True

lemma notMatch_some {s w r : List Char} (h : notMatch s = some (w, r)) :
    w ≠ [] ∧ ∀ c ∈ w, isWordChar c = true := by
  unfold notMatch at h
  dsimp only at h
  split_ifs at h with h1 h2
  simp only [Option.some.injEq, Prod.mk.injEq] at h
  obtain ⟨hw2, hr2⟩ := h
  subst hw2
  exact ⟨h2, fun c hc => mem_takeWhile isWordChar _ c hc⟩

lemma orMatch_some {s w r : List Char} (h : orMatch s = some (w, r)) :
    w ≠ [] ∧ ∀ c ∈ w, isWordChar c = true := by
  unfold orMatch at h
  dsimp only at h
  split_ifs at h with h1 h2
  simp only [Option.some.injEq, Prod.mk.injEq] at h
  obtain ⟨hw2, hr2⟩ := h
  subst hw2
  exact ⟨h2, fun c hc => mem_takeWhile isWordChar _ c hc⟩

lemma wordMatch_some {s w r : List Char} (h : wordMatch s = some (w, r)) :
    w ≠ [] ∧ ∀ c ∈ w, isWordChar c = true := by
  unfold wordMatch at h
  dsimp only at h
  split_ifs at h with h1
  · simp only [Option.some.injEq, Prod.mk.injEq] at h
    obtain ⟨hw2, hr2⟩ := h
    subst hw2
    exact ⟨h1, fun c hc => mem_takeWhile isWordChar _ c hc⟩

lemma findTokensAux_wf : ∀ (n : Nat) (s : List Char), ∀ t ∈ findTokensAux n s, TokWF t := by
  intro n
  induction n with
  | zero => intro s t ht; simp [findTokensAux] at ht
  | succ n ih =>
    intro s t ht
    cases s with
    | nil => simp [findTokensAux] at ht
    | cons c rest =>
      rw [findTokensAux] at ht
      cases hn : notMatch (c :: rest) with
      | some p =>
        obtain ⟨w, r⟩ := p
        rw [hn] at ht
        rcases List.mem_cons.mp ht with rfl | ht
        · exact notMatch_some hn
        · exact ih r t ht
      | none =>
        rw [hn] at ht
        cases ho : orMatch (c :: rest) with
        | some p =>
          obtain ⟨w, r⟩ := p
          rw [ho] at ht
          rcases List.mem_cons.mp ht with rfl | ht
          · exact orMatch_some ho
          · exact ih r t ht
        | none =>
          rw [ho] at ht
          cases hw : wordMatch (c :: rest) with
          | some p =>
            obtain ⟨w, r⟩ := p
            rw [hw] at ht
            rcases List.mem_cons.mp ht with rfl | ht
            · exact wordMatch_some hw
            · exact ih r t ht
          | none =>
            rw [hw] at ht
            by_cases hq : (c :: rest).take 2 = ['"', '"']
            · rw [if_pos hq] at ht
              rcases List.mem_cons.mp ht with rfl | ht
              · trivial
              · exact ih _ t ht
            · rw [if_neg hq] at ht
              exact ih rest t ht

lemma findTokens_wf (s : List Char) : ∀ t ∈ findTokens s, TokWF t :=
  findTokensAux_wf s.length s

/-! ### Shapes: the predicate string depends only on them -/

/-- The outline of a TEXT token: which alternative matched, but not its text. -/
inductive TokShape where
  | notS | orS | wordS | emptyS
deriving DecidableEq, Repr

def Tok.shape : Tok → TokShape
  | .notTok _ => .notS
  | .orTok _ => .orS
  | .word _ => .wordS
  | .emptyQuote => .emptyS

/-- The outline of a whole filter value under its resolved field type. -/
inductive ValShape where
  | text (ts : List TokShape)
  | numLE | numGE | numBetween | numEq
  | skipped
deriving DecidableEq, Repr

/-- Which numeric branch of lines 185-201 the (stripped) value selects. -/
def numShape (v : List Char) : ValShape :=
  let u := stripQuotes v
  if '-' ∈ u then
    let vs := (dashSplit u).filter (fun s => s ≠ [])
    if vs.head? = some ['-'] then .numLE
    else if vs.getLast? = some ['-'] then .numGE
    else .numBetween
  else .numEq

def valueShape (ftype : String) (v : String) : ValShape :=
  if ftype = "TEXT" then .text ((findTokens (pyStrip v.data)).map Tok.shape)
  else if ftype = "INTEGER" ∨ ftype = "FLOAT" then numShape (pyStrip v.data)
  else .skipped

/-- The fragment string a TEXT token shape produces. -/
def shapeFrag (field : String) : TokShape → String
  | .emptyS => field ++ " = %s"
  | .notS => field ++ " !~* %s"
  | .orS => field ++ " ~* %s"
  | .wordS => field ++ " ~* %s"

lemma textFragment_shape (field : String) (t : Tok) (h : TokWF t) :
    (textFragment field (tokValue t)).1 = shapeFrag field t.shape := by
  cases t with
  | notTok w =>
    unfold textFragment tokValue
    rw [if_neg (by simp), if_pos (by simp)]
    rfl
  | orTok w =>
    unfold textFragment tokValue
    rw [if_neg (by simp), if_neg (by simp)]
    rfl
  | word w =>
    obtain ⟨hne, hw⟩ := h
    cases w with
    | nil => exact absurd rfl hne
    | cons c w' =>
      unfold textFragment tokValue
      have hc : isWordChar c = true := hw c (by simp)
      have hcq : ¬((c :: w').take 1 = ['"']) := by
        simp only [List.take_succ_cons, List.take_zero, List.cons.injEq, and_true]
        rintro rfl
        exact absurd hc (by decide)
      have hcn : ¬((c :: w').take 4 = ['N', 'O', 'T', ' ']) := by
        intro heq
        have hsp : ' ' ∈ (c :: w').take 4 := by rw [heq]; simp
        have : isWordChar ' ' = true := hw ' ' (List.take_subset 4 (c :: w') hsp)
        exact absurd this (by decide)
      rw [if_neg hcq, if_neg hcn]
      rfl
  | emptyQuote =>
    unfold textFragment tokValue
    rw [if_pos (by simp), if_pos rfl]
    rfl

lemma textFragments_fst_shape (field : String) (v₁ v₂ : List Char)
    (h : (findTokens v₁).map Tok.shape = (findTokens v₂).map Tok.shape) :
    (textFragments field v₁).1 = (textFragments field v₂).1 := by
  unfold textFragments
  dsimp only
  rw [List.map_map, List.map_map]
  have e : ∀ vv : List Char,
      (findTokens vv).map (Prod.fst ∘ fun t => textFragment field (tokValue t))
        = (findTokens vv).map (shapeFrag field ∘ Tok.shape) := by
    intro vv
    refine List.map_congr_left fun t ht => ?_
    exact textFragment_shape field t (findTokens_wf vv t ht)
  rw [e v₁, e v₂, ← List.map_map, ← List.map_map, h]

lemma numericFragment_fst (field : String) (v : List Char) :
    (numericFragment field v).1
      = [match numShape v with
         | .numLE => field ++ " <= %s"
         | .numGE => field ++ " >= %s"
         | .numBetween => field ++ " BETWEEN %s AND %s"
         | _ => field ++ " = %s"] := by
  unfold numericFragment numShape
  dsimp only
  split_ifs <;> rfl

lemma sqlParts_fst_shape (ft : List (String × String)) :
    ∀ args₁ args₂ : List (String × String),
      List.Forall₂ (fun p q => p.1 = q.1 ∧
        valueShape (fieldTypeOf ft p.1) p.2 = valueShape (fieldTypeOf ft q.1) q.2) args₁ args₂ →
      (sqlParts ft args₁).1 = (sqlParts ft args₂).1 := by
  intro args₁ args₂ h
  induction h with
  | nil => rfl
  | @cons a₁ a₂ l₁ l₂ hpq hrest ih =>
    obtain ⟨f₁, v₁⟩ := a₁
    obtain ⟨f₂, v₂⟩ := a₂
    obtain ⟨hf, hv⟩ := hpq
    dsimp only at hf hv
    subst hf
    show (sqlParts ft ((f₁, v₁) :: l₁)).1 = (sqlParts ft ((f₁, v₂) :: l₂)).1
    unfold sqlParts
    dsimp only
    by_cases h1 : fieldTypeOf ft f₁ = "TEXT"
    · rw [if_pos h1, if_pos h1]
      unfold valueShape at hv
      rw [if_pos h1, if_pos h1] at hv
      simp only [ValShape.text.injEq] at hv
      rw [textFragments_fst_shape f₁ _ _ hv, ih]
    · by_cases h2 : fieldTypeOf ft f₁ = "INTEGER" ∨ fieldTypeOf ft f₁ = "FLOAT"
      · rw [if_neg h1, if_pos h2, if_neg h1, if_pos h2]
        unfold valueShape at hv
        rw [if_neg h1, if_pos h2, if_neg h1, if_pos h2] at hv
        rw [numericFragment_fst, numericFragment_fst, hv, ih]
      · rw [if_neg h1, if_neg h2, if_neg h1, if_neg h2]
        exact ih

lemma query_builder_shape (ft args₁ args₂ : List (String × String)) (ban₁ ban₂ : String)
    (hargs : List.Forall₂ (fun p q => p.1 = q.1 ∧
      valueShape (fieldTypeOf ft p.1) p.2 = valueShape (fieldTypeOf ft q.1) q.2) args₁ args₂)
    (hban : ban₁ = "" ↔ ban₂ = "") :
    (query_builder args₁ ft ban₁).1 = (query_builder args₂ ft ban₂).1 := by
  unfold query_builder
  dsimp only
  have hfst := sqlParts_fst_shape ft args₁ args₂ hargs
  by_cases hb : ban₁ = ""
  · rw [if_neg (by simpa using hb), if_neg (by simpa using hban.mp hb), hfst]
  · rw [if_pos (by simpa using hb), if_pos (by simpa using fun h => hb (hban.mpr h)), hfst]

/-! ### Placeholder substitution: bound-value order matches placeholder order -/

/-- Substitute bound values for `%s` placeholders left to right: each `%s`
(scanned two characters at a time) consumes the next value of the list and is
replaced by that value's characters.  Leftover placeholders (more `%s` than
values) are kept literally. -/
def substPS : List Char → List String → List Char
  | [], _ => []
  | [c], _ => [c]
  | c :: d :: r, vs =>
    if c = '%' ∧ d = 's' then
      match vs with
      | [] => c :: d :: r
      | v :: vs' => v.data ++ substPS r vs'
    else c :: substPS (d :: r) vs

lemma substPS_nil : ∀ l : List Char, substPS l [] = l
  | [] => rfl
  | [_] => rfl
  | c :: d :: r => by
    by_cases h : c = '%' ∧ d = 's'
    · simp only [substPS, if_pos h]
    · simp only [substPS]
      rw [if_neg h, substPS_nil (d :: r)]

lemma substPS_cons₂ (c d : Char) (r : List Char) (vs : List String)
    (h : ¬(c = '%' ∧ d = 's')) :
    substPS (c :: d :: r) vs = c :: substPS (d :: r) vs := by
  simp only [substPS]
  rw [if_neg h]

lemma substPS_ps (r : List Char) (v : String) (vs : List String) :
    substPS ('%' :: 's' :: r) (v :: vs) = v.data ++ substPS r vs := rfl

/-- Substitution distributes over append at a junction that does not split a
placeholder, consuming as many values on the left part as it has
placeholders. -/
lemma substPS_append : ∀ (a b : List Char) (vs1 vs2 : List String),
    countPS a = vs1.length →
    ¬(a.getLast? = some '%' ∧ b.head? = some 's') →
    substPS (a ++ b) (vs1 ++ vs2) = substPS a vs1 ++ substPS b vs2
  | [], b, vs1, vs2, hc, _ => by
    have h0 : vs1 = [] := List.length_eq_zero.mp (by simpa [countPS] using hc.symm)
    subst h0
    simp [substPS]
  | [c], b, vs1, vs2, hc, hb => by
    have h0 : vs1 = [] := List.length_eq_zero.mp (by simpa [countPS] using hc.symm)
    subst h0
    cases b with
    | nil => simp [substPS, substPS_nil]
    | cons d b' =>
      have h : ¬(c = '%' ∧ d = 's') := fun hcd => hb (by simp [hcd.1, hcd.2])
      show substPS (c :: d :: b') vs2 = substPS [c] [] ++ substPS (d :: b') vs2
      rw [substPS_cons₂ c d b' vs2 h]
      rfl
  | c :: d :: r, b, vs1, vs2, hc, hb => by
    by_cases hcd : c = '%' ∧ d = 's'
    · obtain ⟨rfl, rfl⟩ := hcd
      have hc' : countPS ('%' :: 's' :: r) = 1 + countPS r := by
        simp [countPS]
      rw [hc'] at hc
      cases vs1 with
      | nil => simp at hc
      | cons v vs1' =>
        have hlen : countPS r = vs1'.length := by
          simp only [List.length_cons] at hc
          omega
        have hb' : ¬(r.getLast? = some '%' ∧ b.head? = some 's') := by
          cases r with
          | nil => simp
          | cons x xs =>
            intro hx
            exact hb ⟨by rw [List.getLast?_cons_cons, List.getLast?_cons_cons]; exact hx.1, hx.2⟩
        have ih := substPS_append r b vs1' vs2 hlen hb'
        show substPS ('%' :: 's' :: (r ++ b)) (v :: (vs1' ++ vs2)) = _
        rw [substPS_ps, substPS_ps, ih, List.append_assoc]
    · have hcond : ¬(c = '%' ∧ (d :: r).head? = some 's') := by
        simpa using hcd
      have hc' : countPS (d :: r) = vs1.length := by
        rw [← hc]
        show countPS (d :: r)
            = (if c = '%' ∧ (d :: r).head? = some 's' then 1 else 0) + countPS (d :: r)
        rw [if_neg hcond]
        omega
      have hb' : ¬((d :: r).getLast? = some '%' ∧ b.head? = some 's') := by
        rw [← List.getLast?_cons_cons (a := c)]
        exact hb
      have ih := substPS_append (d :: r) b vs1 vs2 hc' hb'
      show substPS (c :: d :: (r ++ b)) (vs1 ++ vs2) = substPS (c :: d :: r) vs1 ++ substPS b vs2
      rw [substPS_cons₂ c d (r ++ b) _ hcd, substPS_cons₂ c d r _ hcd]
      rw [show substPS (d :: (r ++ b)) (vs1 ++ vs2) = substPS ((d :: r) ++ b) (vs1 ++ vs2) from rfl,
        ih]
      rfl

/-- A placeholder-free prefix passes through substitution unchanged. -/
lemma substPS_append₀ (a b : List Char) (vs : List String) (hc : countPS a = 0)
    (hb : ¬(a.getLast? = some '%' ∧ b.head? = some 's')) :
    substPS (a ++ b) vs = a ++ substPS b vs := by
  have h := substPS_append a b [] vs hc hb
  rw [substPS_nil] at h
  simpa using h

/-- Substituting the concatenated value lists into the `" AND "`-joined
fragment list substitutes each fragment's own values into that fragment:
the global bound-value order follows the placeholders left to right. -/
lemma substPS_join : ∀ frs : List (String × List String),
    (∀ p ∈ frs, countPS p.1.data = p.2.length) →
    substPS (joinAnd (frs.map Prod.fst)).data ((frs.map Prod.snd).flatten)
      = (joinAnd (frs.map fun p => String.mk (substPS p.1.data p.2))).data
  | [], _ => rfl
  | [p], _ => by
    show substPS (joinAnd [p.1]).data (p.2 ++ []) = _
    rw [List.append_nil]
    rfl
  | p :: q :: rest, h => by
    have hp : countPS p.1.data = p.2.length := h p (by simp)
    have ih := substPS_join (q :: rest) fun x hx => h x (by simp [hx])
    show substPS ((p.1 ++ " AND " ++ joinAnd ((q :: rest).map Prod.fst))).data
        ((p.2 :: (q :: rest).map Prod.snd).flatten) = _
    rw [String.data_append, String.data_append, List.append_assoc, List.flatten_cons]
    rw [substPS_append p.1.data _ p.2 _ hp
      (fun hx => absurd hx.2 (by
        rw [show ((" AND ").data ++ (joinAnd ((q :: rest).map Prod.fst)).data).head?
            = some ' ' from rfl]
        decide))]
    rw [substPS_append₀ (" AND ").data _ _ (by decide)
      (fun hx => absurd hx.1 (by decide))]
    rw [ih]
    show _ = ((String.mk (substPS p.1.data p.2) ++ " AND "
        ++ joinAnd ((q :: rest).map fun p => String.mk (substPS p.1.data p.2))).data)
    rw [String.data_append, String.data_append, List.append_assoc]

/-- Reference rendering of one TEXT fragment (lines 166-183) with its bound
value spliced where its `%s` placeholder stands. -/
def textFragmentInline (field : String) (v : List Char) : String :=
  if v.take 1 = ['"'] then
    if v = ['"', '"'] then field ++ " = " ++ ""
    else field ++ "=" ++ String.mk (v.drop 1).dropLast
  else if v.take 4 = ['N', 'O', 'T', ' '] then
    let splitValue := pyStrip (joinSpace ((pySplit v).drop 1))
    field ++ " !~* " ++ ("\\m" ++ String.mk splitValue ++ "\\M")
  else
    field ++ " ~* " ++ ("\\m" ++ String.mk v ++ "\\M")

/-- Reference rendering of one INTEGER/FLOAT fragment (lines 185-201) with its
bound values spliced where their placeholders stand, the lower bound before
the upper bound in the BETWEEN form. -/
def numericFragmentInline (field : String) (v0 : List Char) : String :=
  let v := stripQuotes v0
  if '-' ∈ v then
    let vs := (dashSplit v).filter (fun s => s ≠ [])
    if vs.head? = some ['-'] then field ++ " <= " ++ String.mk (vs.getD 1 [])
    else if vs.getLast? = some ['-'] then field ++ " >= " ++ String.mk (vs.getD 0 [])
    else field ++ " BETWEEN " ++ String.mk (vs.getD 0 []) ++ " AND " ++ String.mk (vs.getD 2 [])
  else field ++ " = " ++ String.mk v

/-- The fragment/value pairing of the main loop: the same recursion as
`sqlParts`, but keeping each fragment together with the bound values the code
appends alongside it (the Python loop grows `sql_fields` and `sql_values` in
lockstep). -/
def sqlPartsP (fieldTypes : List (String × String)) :
    List (String × String) → List (String × List String)
  | [] => []
  | (field, value) :: rest =>
    let ftype := fieldTypeOf fieldTypes field
    let tail := sqlPartsP fieldTypes rest
    if ftype = "TEXT" then
      ((findTokens (pyStrip value.data)).map fun t => textFragment field (tokValue t)) ++ tail
    else if ftype = "INTEGER" ∨ ftype = "FLOAT" then
      ((numericFragment field (pyStrip value.data)).1.map
        fun s => (s, (numericFragment field (pyStrip value.data)).2)) ++ tail
    else tail

/-- Reference rendering of the whole fragment list with values spliced in. -/
def sqlPartsInline (fieldTypes : List (String × String)) :
    List (String × String) → List String
  | [] => []
  | (field, value) :: rest =>
    let ftype := fieldTypeOf fieldTypes field
    let tail := sqlPartsInline fieldTypes rest
    if ftype = "TEXT" then
      ((findTokens (pyStrip value.data)).map fun t => textFragmentInline field (tokValue t)) ++ tail
    else if ftype = "INTEGER" ∨ ftype = "FLOAT" then
      numericFragmentInline field (pyStrip value.data) :: tail
    else tail

/-- Reference rendering of the whole compiled clause with every bound value
spliced at its own placeholder: what the clause means when the bound-value
list is applied to the placeholders in left-to-right order. -/
def query_builder_inline (queryArgs fieldTypes : List (String × String)) (banality : String) :
    String :=
  let parts := sqlPartsInline fieldTypes queryArgs
  let parts := if banality ≠ "" then parts ++ ["banality=" ++ banality] else parts
  joinAnd parts

lemma substPS_field_single (field suffix inl v : String)
    (hf : countPS field.data = 0)
    (hh : suffix.data.head? ≠ some 's')
    (hs : substPS suffix.data [v] = inl.data ++ (v.data ++ [])) :
    substPS (field ++ suffix).data [v] = (field ++ inl ++ v).data := by
  rw [String.data_append, substPS_append₀ field.data _ [v] hf (fun hx => hh hx.2), hs,
    String.data_append, String.data_append]
  simp [List.append_assoc]

lemma substPS_field_between (field n m : String) (hf : countPS field.data = 0) :
    substPS (field ++ " BETWEEN %s AND %s").data [n, m]
      = (field ++ " BETWEEN " ++ n ++ " AND " ++ m).data := by
  rw [String.data_append,
    substPS_append₀ field.data _ [n, m] hf (fun hx => absurd hx.2 (by decide))]
  rw [show substPS (" BETWEEN %s AND %s").data [n, m]
      = (" BETWEEN ").data ++ (n.data ++ ((" AND ").data ++ (m.data ++ []))) from rfl]
  rw [String.data_append, String.data_append, String.data_append, String.data_append]
  simp [List.append_assoc]

/-- Substituting a TEXT fragment's own bound value at its placeholder yields
the inline rendering of that fragment. -/
lemma substPS_textFragment (field : String) (w : List Char) (hf : countPS field.data = 0) :
    String.mk (substPS (textFragment field w).1.data (textFragment field w).2)
      = textFragmentInline field w := by
  unfold textFragment textFragmentInline
  split_ifs with h1 h2 h3
  · exact congrArg String.mk (substPS_field_single field " = %s" " = " "" hf (by decide) rfl)
  · exact congrArg String.mk (substPS_field_single field "=%s" "=" _ hf (by decide) rfl)
  · exact congrArg String.mk (substPS_field_single field " !~* %s" " !~* " _ hf (by decide) rfl)
  · exact congrArg String.mk (substPS_field_single field " ~* %s" " ~* " _ hf (by decide) rfl)

/-- Substituting a numeric fragment's own bound values at its placeholders
yields the inline rendering of that fragment. -/
lemma substPS_numericFragment (field : String) (v0 : List Char) (hf : countPS field.data = 0) :
    (numericFragment field v0).1.map
        (fun s => String.mk (substPS s.data (numericFragment field v0).2))
      = [numericFragmentInline field v0] := by
  unfold numericFragment numericFragmentInline
  dsimp only
  split_ifs with h1 h2 h3
  · simp only [List.map_cons, List.map_nil, List.cons.injEq, and_true]
    exact congrArg String.mk (substPS_field_single field " <= %s" " <= " _ hf (by decide) rfl)
  · simp only [List.map_cons, List.map_nil, List.cons.injEq, and_true]
    exact congrArg String.mk (substPS_field_single field " >= %s" " >= " _ hf (by decide) rfl)
  · simp only [List.map_cons, List.map_nil, List.cons.injEq, and_true]
    exact congrArg String.mk (substPS_field_between field _ _ hf)
  · simp only [List.map_cons, List.map_nil, List.cons.injEq, and_true]
    exact congrArg String.mk (substPS_field_single field " = %s" " = " _ hf (by decide) rfl)

/-- Each fragment of a numeric pair carries exactly as many placeholders as
bound values. -/
lemma numericFragment_pair_count (field : String) (v0 : List Char)
    (hf : countPS field.data = 0) :
    ∀ s ∈ (numericFragment field v0).1,
      countPS s.data = (numericFragment field v0).2.length := by
  unfold numericFragment
  dsimp only
  split_ifs with h1 h2 h3 <;>
    intro s hs <;> simp only [List.mem_singleton] at hs <;> subst hs
  · rw [countPS_field_suffix field " <= %s" (by decide),
      (by decide : countPS (" <= %s").data = 1), hf]
    rfl
  · rw [countPS_field_suffix field " >= %s" (by decide),
      (by decide : countPS (" >= %s").data = 1), hf]
    rfl
  · rw [countPS_field_suffix field " BETWEEN %s AND %s" (by decide),
      (by decide : countPS (" BETWEEN %s AND %s").data = 2), hf]
    rfl
  · rw [countPS_field_suffix field " = %s" (by decide),
      (by decide : countPS (" = %s").data = 1), hf]
    rfl

/-- `sqlParts` is the flattening of the fragment/value pairing. -/
lemma sqlParts_eq_pairs (ft : List (String × String)) :
    ∀ args : List (String × String),
      sqlParts ft args
        = ((sqlPartsP ft args).map Prod.fst, ((sqlPartsP ft args).map Prod.snd).flatten)
  | [] => rfl
  | (field, value) :: rest => by
    have ih := sqlParts_eq_pairs ft rest
    rw [sqlParts_cons]
    unfold sqlPartsP
    dsimp only
    split_ifs with h1 h2
    · rw [ih]
      simp [textFragments, List.map_append, List.flatten_append, List.flatMap_def, List.map_map]
    · rw [ih, numericFragment_fst]
      simp [List.map_append, List.flatten_append, List.map_map]
    · exact ih

/-- Under `%s`-free field names, every fragment of the pairing carries exactly
as many placeholders as bound values. -/
lemma sqlPartsP_count (ft : List (String × String)) :
    ∀ args : List (String × String), (∀ f ∈ args.map Prod.fst, countPS f.data = 0) →
      ∀ p ∈ sqlPartsP ft args, countPS p.1.data = p.2.length
  | [], _, p, hp => absurd hp (by simp [sqlPartsP])
  | (field, value) :: rest, h, p, hp => by
    have hf : countPS field.data = 0 := h field (by simp)
    have ih := sqlPartsP_count ft rest (fun g hg => h g (by simp [hg]))
    unfold sqlPartsP at hp
    dsimp only at hp
    split_ifs at hp with h1 h2
    · rcases List.mem_append.mp hp with hmem | hmem
      · obtain ⟨t, _, rfl⟩ := List.mem_map.mp hmem
        have hc := countPS_textFragment field (tokValue t)
        rw [hc.1, hc.2, hf]
      · exact ih p hmem
    · rcases List.mem_append.mp hp with hmem | hmem
      · obtain ⟨s, hs, rfl⟩ := List.mem_map.mp hmem
        exact numericFragment_pair_count field _ hf s hs
      · exact ih p hmem
    · exact ih p hp

/-- Substituting each fragment's own values yields the inline fragment list. -/
lemma sqlPartsP_subst (ft : List (String × String)) :
    ∀ args : List (String × String), (∀ f ∈ args.map Prod.fst, countPS f.data = 0) →
      (sqlPartsP ft args).map (fun p => String.mk (substPS p.1.data p.2))
        = sqlPartsInline ft args
  | [], _ => rfl
  | (field, value) :: rest, h => by
    have hf : countPS field.data = 0 := h field (by simp)
    have ih := sqlPartsP_subst ft rest (fun g hg => h g (by simp [hg]))
    unfold sqlPartsP sqlPartsInline
    dsimp only
    split_ifs with h1 h2
    · rw [List.map_append, ih]
      congr 1
      rw [List.map_map]
      refine List.map_congr_left fun t _ => ?_
      show String.mk (substPS (textFragment field (tokValue t)).1.data
          (textFragment field (tokValue t)).2) = _
      exact substPS_textFragment field (tokValue t) hf
    · rw [List.map_append, ih]
      have e : (((numericFragment field (pyStrip value.data)).1.map
            fun s => (s, (numericFragment field (pyStrip value.data)).2)).map
            (fun p => String.mk (substPS p.1.data p.2)))
          = (numericFragment field (pyStrip value.data)).1.map
            (fun s => String.mk (substPS s.data (numericFragment field (pyStrip value.data)).2)) := by
        rw [List.map_map]
        rfl
      rw [e, substPS_numericFragment field _ hf]
      rfl
    · exact ih

lemma substPS_banality (ban : String) :
    String.mk (substPS ("banality=%s").data [ban]) = "banality=" ++ ban := by
  rw [show substPS ("banality=%s").data [ban] = ("banality=").data ++ (ban.data ++ []) from rfl]
  rw [List.append_nil]
  rfl

/-- Substituting the returned bound values into the returned clause, pairing
placeholders with values in left-to-right list order, reconstructs exactly the
inline reference clause: every value lands at its own fragment's placeholder. -/
lemma query_builder_subst (args ft : List (String × String)) (ban : String)
    (h : ∀ f ∈ args.map Prod.fst, countPS f.data = 0) :
    substPS (query_builder args ft ban).1.data (query_builder args ft ban).2
      = (query_builder_inline args ft ban).data := by
  unfold query_builder query_builder_inline
  dsimp only
  by_cases hb : ban = ""
  · rw [if_neg (by simp [hb]), if_neg (by simp [hb])]
    rw [sqlParts_eq_pairs]
    dsimp only
    rw [substPS_join _ (sqlPartsP_count ft args h), sqlPartsP_subst ft args h]
  · rw [if_pos hb, if_pos hb]
    rw [sqlParts_eq_pairs]
    dsimp only
    have e1 : (sqlPartsP ft args).map Prod.fst ++ ["banality=%s"]
        = ((sqlPartsP ft args) ++ [("banality=%s", [ban])]).map Prod.fst := by simp
    have e2 : ((sqlPartsP ft args).map Prod.snd).flatten ++ [ban]
        = (((sqlPartsP ft args) ++ [("banality=%s", [ban])]).map Prod.snd).flatten := by simp
    rw [e1, e2]
    rw [substPS_join ((sqlPartsP ft args) ++ [("banality=%s", [ban])]) (fun p hp => by
      rcases List.mem_append.mp hp with hmem | hmem
      · exact sqlPartsP_count ft args h p hmem
      · simp only [List.mem_singleton] at hmem
        subst hmem
        exact (by decide : countPS ("banality=%s").data = 1))]
    rw [show ((sqlPartsP ft args) ++ [("banality=%s", [ban])]).map
          (fun p => String.mk (substPS p.1.data p.2))
        = (sqlPartsP ft args).map (fun p => String.mk (substPS p.1.data p.2))
          ++ [String.mk (substPS ("banality=%s").data [ban])] from by simp]
    rw [sqlPartsP_subst ft args h, substPS_banality]

/-! ### Claim C1 -/

/-- C1, counterexample: the claim "for every FilterRequest the number of %s
placeholders in the predicate equals the length of the bound-value list" fails
as stated, because filter field names (which are part of the FilterRequest and
are interpolated structurally into the predicate) may themselves contain `%s`:
for the request `{"a%sb": "x"}` the predicate is `a%sb ~* %s` with two
placeholder occurrences but only one bound value. -/
theorem C1_counterexample :
    countPSStr (query_builder [("a%sb", "x")] [] "").1
      ≠ (query_builder [("a%sb", "x")] [] "").2.length := by
  decide

/-- C1 (amended): provided no filter field name contains the placeholder
marker `%s`: the number of `%s` placeholders in the WHERE clause returned by
`query_builder` equals the length of the bound-value list; the bound-value
list's order matches the placeholders' left-to-right order, in that
substituting the values for the placeholders in list order reconstructs
exactly the inline reference clause with every value spliced at its own
fragment's placeholder (and the lower BETWEEN bound before the upper); and
the predicate string never embeds raw filter or banality values: two requests
with the same field names and identically-shaped tokens (and agreeing on
banality presence) produce the same predicate string. -/
theorem C1_no_raw_values :
    (∀ args ft ban, (∀ f ∈ args.map Prod.fst, countPS f.data = 0) →
      countPSStr (query_builder args ft ban).1 = (query_builder args ft ban).2.length) ∧
    (∀ args ft ban, (∀ f ∈ args.map Prod.fst, countPS f.data = 0) →
      String.mk (substPS (query_builder args ft ban).1.data (query_builder args ft ban).2)
        = query_builder_inline args ft ban) ∧
    (∀ ft args₁ args₂ ban₁ ban₂,
      List.Forall₂ (fun p q => p.1 = q.1 ∧
        valueShape (fieldTypeOf ft p.1) p.2 = valueShape (fieldTypeOf ft q.1) q.2) args₁ args₂ →
      (ban₁ = "" ↔ ban₂ = "") →
      (query_builder args₁ ft ban₁).1 = (query_builder args₂ ft ban₂).1) :=
  ⟨fun args ft ban h => query_builder_count args ft ban h,
   fun args ft ban h => congrArg String.mk (query_builder_subst args ft ban h),
   fun ft a₁ a₂ b₁ b₂ h hb => query_builder_shape ft a₁ a₂ b₁ b₂ h hb⟩

/-- C1, witness: the amended statement evaluated on a concrete request,
including the left-to-right substitution of the bound values into the
returned clause. -/
theorem C1_witness :
    countPSStr (query_builder [("title", "dog"), ("year", "10-20")] [("year", "INTEGER")] "b").1
        = 4 ∧
      String.mk (substPS (query_builder [("title", "dog"), ("year", "10-20")]
            [("year", "INTEGER")] "b").1.data
          (query_builder [("title", "dog"), ("year", "10-20")] [("year", "INTEGER")] "b").2)
        = "title ~* \\mdog\\M AND year BETWEEN 10 AND 20 AND banality=b" ∧
      (query_builder [("title", "dog")] [] "").1 = (query_builder [("title", "cat")] [] "").1 := by
  refine ⟨?_, ?_, ?_⟩
  · have h := C1_no_raw_values.1 [("title", "dog"), ("year", "10-20")] [("year", "INTEGER")] "b"
      (by decide)
    rw [h]
    decide
  · have h := C1_no_raw_values.2.1 [("title", "dog"), ("year", "10-20")] [("year", "INTEGER")] "b"
      (by decide)
    rw [h]
    decide
  · exact C1_no_raw_values.2.2 [] [("title", "dog")] [("title", "cat")] "" ""
      (List.Forall₂.cons ⟨rfl, by decide⟩ List.Forall₂.nil) Iff.rfl

/-! ### Claim C10 -/

/-- C10: a filter field absent from the field-type map is not dropped; its
type defaults to TEXT and it contributes TEXT-style fragments interpolating
the unknown field name into the predicate; only a field whose resolved type is
none of TEXT, INTEGER, FLOAT is skipped, contributing neither fragments nor
bound values. -/
theorem C10_unknown_field_defaults_to_text :
    (∀ ft (field v : String) rest, lookupType ft field = none →
      fieldTypeOf ft field = "TEXT" ∧
        sqlParts ft ((field, v) :: rest)
          = ((textFragments field (pyStrip v.data)).1 ++ (sqlParts ft rest).1,
             (textFragments field (pyStrip v.data)).2 ++ (sqlParts ft rest).2)) ∧
    ((query_builder [("unknown_col", "x")] [] "").1 = "unknown_col ~* %s") ∧
    (∀ ft (field v : String) rest ty, lookupType ft field = some ty →
      pyUpper ty ≠ "TEXT" → pyUpper ty ≠ "INTEGER" → pyUpper ty ≠ "FLOAT" →
      sqlParts ft ((field, v) :: rest) = sqlParts ft rest) := by
  refine ⟨fun ft field v rest hnone => ?_, by decide, fun ft field v rest ty hsome h1 h2 h3 => ?_⟩
  · have htype : fieldTypeOf ft field = "TEXT" := by
      unfold fieldTypeOf
      rw [hnone]
      decide
    exact ⟨htype, by rw [sqlParts_cons, if_pos htype]⟩
  · have htype : fieldTypeOf ft field = pyUpper ty := by
      unfold fieldTypeOf
      rw [hsome]
      rfl
    rw [sqlParts_cons, htype, if_neg h1, if_neg (by rintro (h | h) <;> [exact h2 h; exact h3 h])]

/-- C10, witness: a field missing from the type map produces a TEXT regex
fragment; a BOOLEAN-typed field is skipped. -/
theorem C10_witness :
    sqlParts [("year", "INTEGER")] [("foo", "x")] = (["foo ~* %s"], ["\\mx\\M"]) ∧
      sqlParts [("banality", "BOOLEAN")] [("banality", "true")] = ([], []) := by
  constructor
  · have h := (C10_unknown_field_defaults_to_text.1 [("year", "INTEGER")] "foo" "x" []
      (by decide)).2
    rw [h]
    decide
  · have h := C10_unknown_field_defaults_to_text.2.2 [("banality", "BOOLEAN")] "banality" "true"
      [] "BOOLEAN" (by decide) (by decide) (by decide) (by decide)
    rw [h]
    rfl

/-! ### Claim C2, counterexample -/

/-- C2, counterexample: the claim says a token wrapped in double quotes yields
an exact-match fragment binding the unquoted content; but for the filter
`"dog"` on a TEXT field the tokenizer never matches the surrounding quotes
(the regex has no alternative for quoted content), so the compiler emits an
affirmative word-boundary regex fragment binding `\mdog\M`, not an
exact-match fragment binding `dog`. -/
theorem C2_counterexample :
    query_builder [("title", "\"dog\"")] [("title", "TEXT")] ""
        = ("title ~* %s", ["\\mdog\\M"]) ∧
      (query_builder [("title", "\"dog\"")] [("title", "TEXT")] "").2 ≠ ["dog"] := by
  constructor <;> decide

/-! ### Tokenizer characterizations -/

lemma findTokensAux_nil : ∀ n, findTokensAux n [] = [] := by
  intro n
  cases n <;> rfl

lemma pySplitAux_nil : ∀ n, pySplitAux n [] = [] := by
  intro n
  cases n <;> rfl

lemma notMatch_notForm (w : List Char) (hne : w ≠ []) (hw : ∀ c ∈ w, isWordChar c = true) :
    notMatch ('N' :: 'O' :: 'T' :: ' ' :: w) = some (w, []) := by
  unfold notMatch
  rw [show List.take 4 ('N' :: 'O' :: 'T' :: ' ' :: w) = ['N', 'O', 'T', ' '] from rfl,
    if_pos rfl]
  dsimp only
  rw [show List.drop 4 ('N' :: 'O' :: 'T' :: ' ' :: w) = w from rfl]
  rw [takeWhile_all isWordChar w hw, dropWhile_all isWordChar w hw, if_neg hne]

lemma notMatch_none_of_word (s : List Char) (hw : ∀ c ∈ s, isWordChar c = true) :
    notMatch s = none := by
  unfold notMatch
  rw [if_neg]
  intro heq
  have hsp : ' ' ∈ s.take 4 := by rw [heq]; simp
  exact absurd (hw ' ' (List.take_subset _ _ hsp)) (by decide)

lemma orMatch_none_of_word (s : List Char) (hw : ∀ c ∈ s, isWordChar c = true) :
    orMatch s = none := by
  unfold orMatch
  rw [if_neg]
  intro heq
  have hsp : ' ' ∈ s.take 3 := by rw [heq]; simp
  exact absurd (hw ' ' (List.take_subset _ _ hsp)) (by decide)

/-- The scanner on `NOT w` for a nonempty word `w` yields the single negated
token. -/
lemma findTokens_notForm (w : List Char) (hne : w ≠ []) (hw : ∀ c ∈ w, isWordChar c = true) :
    findTokens ('N' :: 'O' :: 'T' :: ' ' :: w) = [Tok.notTok w] := by
  show findTokensAux ('N' :: 'O' :: 'T' :: ' ' :: w).length _ = _
  rw [(by simp : ('N' :: 'O' :: 'T' :: ' ' :: w).length = (w.length + 3) + 1)]
  rw [findTokensAux, notMatch_notForm w hne hw]
  try dsimp only
  rw [findTokensAux_nil]

/-- The scanner on a bare nonempty word `w` yields the single affirmative
token. -/
lemma findTokens_word (w : List Char) (hne : w ≠ []) (hw : ∀ c ∈ w, isWordChar c = true) :
    findTokens w = [Tok.word w] := by
  obtain ⟨c, w', rfl⟩ : ∃ c w', w = c :: w' := by
    cases w with
    | nil => exact absurd rfl hne
    | cons c w' => exact ⟨c, w', rfl⟩
  show findTokensAux (c :: w').length _ = _
  rw [List.length_cons, findTokensAux, notMatch_none_of_word _ hw]
  try dsimp only
  rw [orMatch_none_of_word _ hw]
  try dsimp only
  have hwm : wordMatch (c :: w') = some (c :: w', []) := by
    unfold wordMatch
    dsimp only
    rw [takeWhile_all isWordChar _ hw, dropWhile_all isWordChar _ hw, if_neg hne]
  rw [hwm]
  try dsimp only
  rw [findTokensAux_nil]

/-- Stepping equation of the whitespace splitter when the input starts with a
non-space character. -/
lemma pySplitAux_step (n : Nat) (s : List Char) (hs : s.dropWhile isPySpace = s)
    (hne : s ≠ []) :
    pySplitAux (n + 1) s
      = s.takeWhile (fun c => !isPySpace c)
          :: pySplitAux n (s.dropWhile (fun c => !isPySpace c)) := by
  rw [pySplitAux]
  try dsimp only
  rw [hs, if_neg hne]

lemma pySplit_notForm (w : List Char) (hne : w ≠ []) (hw : ∀ c ∈ w, isWordChar c = true) :
    pySplit ('N' :: 'O' :: 'T' :: ' ' :: w) = [['N', 'O', 'T'], w] := by
  have hword : ∀ c ∈ w, (!isPySpace c) = true := fun c hc => by
    rw [not_space_of_word (hw c hc)]
    rfl
  unfold pySplit
  rw [pySplitAux_step _ _ rfl (by simp)]
  have htake : ('N' :: 'O' :: 'T' :: ' ' :: w).takeWhile (fun c => !isPySpace c)
      = ['N', 'O', 'T'] := rfl
  have hdropw : ('N' :: 'O' :: 'T' :: ' ' :: w).dropWhile (fun c => !isPySpace c)
      = ' ' :: w := rfl
  rw [htake, hdropw]
  have hlen : ('N' :: 'O' :: 'T' :: ' ' :: w).length = (w.length + 3) + 1 := by simp
  rw [hlen, pySplitAux]
  try dsimp only
  have hdw : (' ' :: w).dropWhile isPySpace = w := by
    rw [List.dropWhile_cons, (by decide : isPySpace ' ' = true)]
    rw [if_pos rfl]
    exact dropWhile_none _ w fun c hc => not_space_of_word (hw c hc)
  rw [hdw, if_neg hne, takeWhile_all _ w hword, dropWhile_all _ w hword, pySplitAux_nil]

lemma joinSpace_single (w : List Char) : joinSpace [w] = w := by
  simp [joinSpace, List.intercalate]

/-- The NOT token of word `w` compiles to a negated case-insensitive regex
fragment binding the word-boundary pattern of `w`. -/
lemma textFragment_notTok (field : String) (w : List Char) (hne : w ≠ [])
    (hw : ∀ c ∈ w, isWordChar c = true) :
    textFragment field (tokValue (Tok.notTok w))
      = (field ++ " !~* %s", ["\\m" ++ String.mk w ++ "\\M"]) := by
  unfold textFragment tokValue
  rw [if_neg (by simp), if_pos (by simp)]
  dsimp only
  rw [pySplit_notForm w hne hw]
  have hj : joinSpace (List.drop 1 [['N', 'O', 'T'], w]) = w := by
    show joinSpace [w] = w
    exact joinSpace_single w
  rw [hj, pyStrip_of_no_space w fun c hc => not_space_of_word (hw c hc)]

/-- A bare word token compiles to an affirmative case-insensitive regex
fragment binding the word-boundary pattern of `w`. -/
lemma textFragment_word (field : String) (w : List Char) (hne : w ≠ [])
    (hw : ∀ c ∈ w, isWordChar c = true) :
    textFragment field (tokValue (Tok.word w))
      = (field ++ " ~* %s", ["\\m" ++ String.mk w ++ "\\M"]) := by
  obtain ⟨c, w', rfl⟩ : ∃ c w', w = c :: w' := by
    cases w with
    | nil => exact absurd rfl hne
    | cons c w' => exact ⟨c, w', rfl⟩
  unfold textFragment tokValue
  have hc : isWordChar c = true := hw c (by simp)
  have hcq : ¬((c :: w').take 1 = ['"']) := by
    simp only [List.take_succ_cons, List.take_zero, List.cons.injEq, and_true]
    rintro rfl
    exact absurd hc (by decide)
  have hcn : ¬((c :: w').take 4 = ['N', 'O', 'T', ' ']) := by
    intro heq
    have hsp : ' ' ∈ (c :: w').take 4 := by rw [heq]; simp
    exact absurd (hw ' ' (List.take_subset 4 (c :: w') hsp)) (by decide)
  rw [if_neg hcq, if_neg hcn]

/-- Evaluation of `query_builder` on a single TEXT-typed field with no
banality filter. -/
lemma query_builder_one (field v : String) (ft : List (String × String))
    (hty : fieldTypeOf ft field = "TEXT") :
    query_builder [(field, v)] ft ""
      = (joinAnd (textFragments field (pyStrip v.data)).1,
         (textFragments field (pyStrip v.data)).2) := by
  unfold query_builder
  dsimp only
  rw [if_neg (by simp), sqlParts_cons, if_pos hty]
  simp [sqlParts]

lemma fieldTypeOf_self (field ty : String) (rest : List (String × String)) :
    fieldTypeOf ((field, ty) :: rest) field = pyUpper ty := by
  unfold fieldTypeOf lookupType
  rw [if_pos rfl]
  rfl

/-! ### Word-boundary regex semantics -/

/-- Does the previous character (if any) end a word?  `\m` matches here. -/
def boundaryOK : Option Char → Bool
  | none => true
  | some c => !isWordChar c

/-- Case-insensitive character comparison, as under the `~*` operator. -/
def lowerEq (a b : Char) : Bool := a.toLower = b.toLower

/-- Case-insensitive prefix match of `w` against `s`. -/
def matchCI : List Char → List Char → Bool
  | [], _ => true
  | _ :: _, [] => false
  | a :: as, b :: bs => lowerEq a b && matchCI as bs

/-- Is the character after the matched word (if any) a non-word character?
`\M` matches there. -/
def afterOK (w s : List Char) : Bool :=
  match s.drop w.length with
  | [] => true
  | c :: _ => !isWordChar c

def wwSearch (w : List Char) : Option Char → List Char → Bool
  | _, [] => false
  | prev, c :: rest =>
    (boundaryOK prev && matchCI w (c :: rest) && afterOK w (c :: rest))
      || wwSearch w (some c) rest

/-- Semantics of the PostgreSQL case-insensitive regex `\mw\M` under `~*`:
the pattern matches a string iff `w` occurs in it as a whole word. -/
def matchesWholeWord (w s : List Char) : Bool := wwSearch w none s

/-! ### Claim C2 -/

/-- C2 (amended): the parser classifies TEXT filter tokens as follows.  The
empty quoted token `""` yields an exact-match fragment binding the empty
string.  A quoted token with content is split into its bare word components
(each treated as an affirmative regex token; see the counterexample).  A token
of the form `NOT w` yields a negated case-insensitive regex fragment binding
the word-boundary pattern `\mw\M`; a bare word token `w` yields an affirmative
case-insensitive regex fragment binding `\mw\M`; such a pattern matches a
string only where `w` occurs as a whole word (`dog` matches "a dog ran" but
not "dogma"). -/
theorem C2_token_classification :
    (∀ field : String,
      query_builder [(field, "\"\"")] [(field, "TEXT")] "" = (field ++ " = %s", [""])) ∧
    (∀ field w : String, w.data ≠ [] → (∀ c ∈ w.data, isWordChar c = true) →
      query_builder [(field, "NOT " ++ w)] [(field, "TEXT")] ""
          = (field ++ " !~* %s", ["\\m" ++ w ++ "\\M"]) ∧
        query_builder [(field, w)] [(field, "TEXT")] ""
          = (field ++ " ~* %s", ["\\m" ++ w ++ "\\M"])) ∧
    (matchesWholeWord "dog".data "a dog ran".data = true ∧
      matchesWholeWord "dog".data "dogma".data = false) := by
  have htext : ∀ field : String, fieldTypeOf [(field, "TEXT")] field = "TEXT" := fun field => by
    rw [fieldTypeOf_self]
    decide
  refine ⟨fun field => ?_, fun field w hne hw => ⟨?_, ?_⟩, by decide, by decide⟩
  · rw [query_builder_one field "\"\"" _ (htext field)]
    rfl
  · rw [query_builder_one field ("NOT " ++ w) _ (htext field)]
    have hdata : ("NOT " ++ w).data = 'N' :: 'O' :: 'T' :: ' ' :: w.data := by
      rw [String.data_append]
      rfl
    rw [hdata, pyStrip_notForm w.data hne hw]
    unfold textFragments
    rw [findTokens_notForm w.data hne hw]
    dsimp only [List.map_cons, List.map_nil, List.flatMap_cons, List.flatMap_nil]
    rw [textFragment_notTok field w.data hne hw]
    simp [joinAnd]
  · rw [query_builder_one field w _ (htext field)]
    rw [pyStrip_of_no_space w.data fun c hc => not_space_of_word (hw c hc)]
    unfold textFragments
    rw [findTokens_word w.data hne hw]
    dsimp only [List.map_cons, List.map_nil, List.flatMap_cons, List.flatMap_nil]
    rw [textFragment_word field w.data hne hw]
    simp [joinAnd]

/-- C2, witness: the classification applied to the word `dog`. -/
theorem C2_witness :
    query_builder [("title", "NOT " ++ "dog")] [("title", "TEXT")] ""
        = ("title" ++ " !~* %s", ["\\m" ++ "dog" ++ "\\M"]) ∧
      query_builder [("title", "dog")] [("title", "TEXT")] ""
        = ("title" ++ " ~* %s", ["\\m" ++ "dog" ++ "\\M"]) :=
  C2_token_classification.2.1 "title" "dog" (by decide) (by decide)

/-! ### Claim C3: numeric range parsing -/

lemma dashSplit_no_dash (n : List Char) (h : ∀ c ∈ n, c ≠ '-') :
    dashSplit n = [n] := by
  induction n with
  | nil => rfl
  | cons c t ih =>
    rw [dashSplit, if_neg (h c (by simp)), ih fun c hc => h c (by simp [hc])]

lemma dashSplit_append_dash (n rest : List Char) (h : ∀ c ∈ n, c ≠ '-') :
    dashSplit (n ++ '-' :: rest) = n :: ['-'] :: dashSplit rest := by
  induction n with
  | nil => simp [dashSplit]
  | cons c t ih =>
    rw [List.cons_append, dashSplit, if_neg (h c (by simp)),
      ih fun c hc => h c (by simp [hc])]

lemma stripQuotes_id (v : List Char) (h : ∀ c ∈ v, c ≠ '"') : stripQuotes v = v := by
  rw [stripQuotes, List.filter_eq_self]
  intro a ha
  simpa using h a ha

lemma stripQuotes_idem (v : List Char) : stripQuotes (stripQuotes v) = stripQuotes v := by
  refine stripQuotes_id _ fun c hc => ?_
  rw [stripQuotes] at hc
  simpa using (List.mem_filter.mp hc).2

lemma digits_not_space (n : List Char) (hd : ∀ c ∈ n, c.isDigit = true) :
    ∀ c ∈ n, isPySpace c = false :=
  fun c hc => not_space_of_word (digit_word (hd c hc))

lemma digits_ne_dash_list (n : List Char) (hd : ∀ c ∈ n, c.isDigit = true) : n ≠ ['-'] :=
  fun h => absurd (hd '-' (h ▸ by simp)) (by decide)

/-- Evaluation of `query_builder` on a single INTEGER/FLOAT-typed field with
no banality filter. -/
lemma query_builder_one_num (field v : String) (ft : List (String × String))
    (hty : fieldTypeOf ft field = "INTEGER" ∨ fieldTypeOf ft field = "FLOAT") :
    query_builder [(field, v)] ft ""
      = (joinAnd (numericFragment field (pyStrip v.data)).1,
         (numericFragment field (pyStrip v.data)).2) := by
  unfold query_builder
  dsimp only
  have hne : fieldTypeOf ft field ≠ "TEXT" := by
    rcases hty with h | h <;> rw [h] <;> decide
  rw [if_neg (by simp), sqlParts_cons, if_neg hne, if_pos hty]
  simp [sqlParts]

/-- C3: for INTEGER/FLOAT fields, after stripping quote characters the filter
string is parsed into exactly one of four predicates: `-N` gives `<= N`,
`N-` gives `>= N`, `N-M` gives `BETWEEN N AND M` (inclusive range in SQL),
and a bare `N` gives `= N`, each numeric literal passing through the
bound-value list only. -/
theorem C3_numeric_ranges :
    ∀ (field ty : String) (n m : List Char), (ty = "INTEGER" ∨ ty = "FLOAT") →
      n ≠ [] → (∀ c ∈ n, c.isDigit = true) → m ≠ [] → (∀ c ∈ m, c.isDigit = true) →
      (query_builder [(field, String.mk ('-' :: n))] [(field, ty)] ""
          = (field ++ " <= %s", [String.mk n])) ∧
      (query_builder [(field, String.mk (n ++ ['-']))] [(field, ty)] ""
          = (field ++ " >= %s", [String.mk n])) ∧
      (query_builder [(field, String.mk (n ++ '-' :: m))] [(field, ty)] ""
          = (field ++ " BETWEEN %s AND %s", [String.mk n, String.mk m])) ∧
      (query_builder [(field, String.mk n)] [(field, ty)] ""
          = (field ++ " = %s", [String.mk n])) ∧
      (∀ v : List Char, numericFragment field (stripQuotes v) = numericFragment field v) := by
  intro field ty n m hty hnne hnd hmne hmd
  have htyof : fieldTypeOf [(field, ty)] field = "INTEGER" ∨
      fieldTypeOf [(field, ty)] field = "FLOAT" := by
    rw [fieldTypeOf_self]
    rcases hty with rfl | rfl
    · exact Or.inl (by decide)
    · exact Or.inr (by decide)
  have hnq : ∀ c ∈ n, c ≠ '"' := fun c hc => digit_ne_quote (hnd c hc)
  have hmq : ∀ c ∈ m, c ≠ '"' := fun c hc => digit_ne_quote (hmd c hc)
  have hndash : ∀ c ∈ n, c ≠ '-' := fun c hc => digit_ne_dash (hnd c hc)
  have hmdash : ∀ c ∈ m, c ≠ '-' := fun c hc => digit_ne_dash (hmd c hc)
  refine ⟨?_, ?_, ?_, ?_, ?_⟩
  · -- "-N" ⇒ field <= N
    rw [query_builder_one_num field _ _ htyof]
    have hstrip : pyStrip (String.mk ('-' :: n)).data = '-' :: n := by
      refine pyStrip_of_no_space _ fun c hc => ?_
      rcases List.mem_cons.mp hc with rfl | hc
      · decide
      · exact digits_not_space n hnd c hc
    rw [hstrip]
    unfold numericFragment
    rw [stripQuotes_id _ (by
      intro c hc
      rcases List.mem_cons.mp hc with rfl | hc
      · decide
      · exact hnq c hc)]
    rw [if_pos (List.mem_cons_self '-' n)]
    have hds : dashSplit ('-' :: n) = [] :: ['-'] :: [n] := by
      have := dashSplit_append_dash [] n (by simp)
      simpa [dashSplit_no_dash n hndash] using this
    rw [hds]
    have hfil : (([] : List Char) :: ['-'] :: [n]).filter (fun s => s ≠ []) = [['-'], n] := by
      simp [List.filter, hnne]
    rw [hfil]
    try dsimp only
    rw [show ([['-'], n] : List (List Char)).head? = some ['-'] from rfl, if_pos rfl]
    rfl
  · -- "N-" ⇒ field >= N
    rw [query_builder_one_num field _ _ htyof]
    have hstrip : pyStrip (String.mk (n ++ ['-'])).data = n ++ ['-'] := by
      refine pyStrip_of_no_space _ fun c hc => ?_
      rcases List.mem_append.mp hc with hc | hc
      · exact digits_not_space n hnd c hc
      · simp at hc
        subst hc
        decide
    rw [hstrip]
    unfold numericFragment
    rw [stripQuotes_id _ (by
      intro c hc
      rcases List.mem_append.mp hc with hc | hc
      · exact hnq c hc
      · simp at hc
        subst hc
        decide)]
    rw [if_pos (by simp)]
    have hds : dashSplit (n ++ ['-']) = n :: ['-'] :: [[]] := by
      have := dashSplit_append_dash n [] hndash
      simpa [dashSplit] using this
    rw [hds]
    have hfil : (n :: ['-'] :: [([] : List Char)]).filter (fun s => s ≠ []) = [n, ['-']] := by
      simp [List.filter, hnne]
    rw [hfil]
    try dsimp only
    rw [show ([n, ['-']] : List (List Char)).head? = some n from rfl]
    rw [if_neg (by simpa using digits_ne_dash_list n hnd)]
    rw [show ([n, ['-']] : List (List Char)).getLast? = some ['-'] from rfl, if_pos rfl]
    rfl
  · -- "N-M" ⇒ field BETWEEN N AND M
    rw [query_builder_one_num field _ _ htyof]
    have hstrip : pyStrip (String.mk (n ++ '-' :: m)).data = n ++ '-' :: m := by
      refine pyStrip_of_no_space _ fun c hc => ?_
      rcases List.mem_append.mp hc with hc | hc
      · exact digits_not_space n hnd c hc
      · rcases List.mem_cons.mp hc with rfl | hc
        · decide
        · exact digits_not_space m hmd c hc
    rw [hstrip]
    unfold numericFragment
    rw [stripQuotes_id _ (by
      intro c hc
      rcases List.mem_append.mp hc with hc | hc
      · exact hnq c hc
      · rcases List.mem_cons.mp hc with rfl | hc
        · decide
        · exact hmq c hc)]
    rw [if_pos (by simp)]
    have hds : dashSplit (n ++ '-' :: m) = n :: ['-'] :: [m] := by
      rw [dashSplit_append_dash n m hndash, dashSplit_no_dash m hmdash]
    rw [hds]
    have hfil : (n :: ['-'] :: [m]).filter (fun s => s ≠ []) = [n, ['-'], m] := by
      simp [List.filter, hnne, hmne]
    rw [hfil]
    try dsimp only
    rw [show ([n, ['-'], m] : List (List Char)).head? = some n from rfl]
    rw [if_neg (by simpa using digits_ne_dash_list n hnd)]
    rw [show ([n, ['-'], m] : List (List Char)).getLast? = some m from rfl]
    rw [if_neg (by simpa using digits_ne_dash_list m hmd)]
    rfl
  · -- "N" ⇒ field = N
    rw [query_builder_one_num field _ _ htyof]
    have hstrip : pyStrip (String.mk n).data = n :=
      pyStrip_of_no_space _ (digits_not_space n hnd)
    rw [hstrip]
    unfold numericFragment
    rw [stripQuotes_id _ hnq]
    rw [if_neg (by
      intro hmem
      exact absurd (hnd '-' hmem) (by decide))]
    rfl
  · -- quote characters are stripped before parsing
    intro v
    unfold numericFragment
    rw [stripQuotes_idem]

/-- C3, witness: the four range forms evaluated at N = 10, M = 20 on an
INTEGER field. -/
theorem C3_witness :
    query_builder [("year", String.mk ('-' :: "10".data))] [("year", "INTEGER")] ""
        = ("year" ++ " <= %s", [String.mk "10".data]) ∧
      query_builder [("year", String.mk ("10".data ++ '-' :: "20".data))] [("year", "INTEGER")] ""
        = ("year" ++ " BETWEEN %s AND %s", [String.mk "10".data, String.mk "20".data]) := by
  have h := C3_numeric_ranges "year" "INTEGER" "10".data "20".data (Or.inl rfl)
    (by decide) (by decide) (by decide) (by decide)
  exact ⟨h.1, h.2.2.1⟩

/-! ### Pagination engine (`search_alignments`, lines 262-316) -/

/-- One row of the joined alignment/ordering-index result: the ordering key
`rowid_ordered`, the `group_id` column, and a stand-in for the remaining
metadata columns. -/
structure Alignment where
  rowid_ordered : Int
  group_id : Int
  payload : Nat
deriving DecidableEq, Repr

/-- `ORDER BY o.rowid_ordered desc`. -/
def descKey (a b : Alignment) : Prop := b.rowid_ordered ≤ a.rowid_ordered

/-- `ORDER BY o.rowid_ordered` (ascending). -/
def ascKey (a b : Alignment) : Prop := a.rowid_ordered ≤ b.rowid_ordered

instance : DecidableRel descKey := fun a b =>
  inferInstanceAs (Decidable (b.rowid_ordered ≤ a.rowid_ordered))

instance : DecidableRel ascKey := fun a b =>
  inferInstanceAs (Decidable (a.rowid_ordered ≤ b.rowid_ordered))

instance : IsTotal Alignment descKey :=
  ⟨fun a b => le_total b.rowid_ordered a.rowid_ordered⟩

instance : IsTotal Alignment ascKey :=
  ⟨fun a b => le_total a.rowid_ordered b.rowid_ordered⟩

instance : IsTrans Alignment descKey :=
  ⟨fun _ _ _ hab hbc => le_trans hbc hab⟩

instance : IsTrans Alignment ascKey :=
  ⟨fun _ _ _ hab hbc => le_trans hab hbc⟩

/-- The SQL query of the `previous` branch (lines 271-275): rows satisfying
the compiled predicate with ordering key strictly below the anchor, sorted
descending, limited to 50. -/
def selectPrev (db : List Alignment) (pred : Alignment → Bool) (anchor : Int) :
    List Alignment :=
  (List.insertionSort descKey
    (db.filter fun r => pred r && decide (r.rowid_ordered < anchor))).take 50

/-- The SQL query of the `next` branch (lines 263-268): key strictly above the
anchor, ascending, limited to 50. -/
def selectNext (db : List Alignment) (pred : Alignment → Bool) (anchor : Int) :
    List Alignment :=
  (List.insertionSort ascKey
    (db.filter fun r => pred r && decide (r.rowid_ordered > anchor))).take 50

/-- The in-memory result shaping of `search_alignments` (lines 283-304):
collect rows and their group ids in query order, reverse both when the
direction is `previous`, then attach each row's group member count. -/
def search_alignments_rows (direction : String) (db : List Alignment)
    (pred : Alignment → Bool) (anchor : Int) (counts : Int → Nat) :
    List (Alignment × Nat) × List Int :=
  let rows := if direction = "next" then selectNext db pred anchor else selectPrev db pred anchor
  let alignments := rows
  let group_ids := rows.map (·.group_id)
  let alignments := if direction = "previous" then alignments.reverse else alignments
  let group_ids := if direction = "previous" then group_ids.reverse else group_ids
  (alignments.map fun a => (a, counts a.group_id), group_ids)

lemma search_prev_eq (db : List Alignment) (pred : Alignment → Bool) (anchor : Int)
    (counts : Int → Nat) :
    search_alignments_rows "previous" db pred anchor counts
      = ((selectPrev db pred anchor).reverse.map fun a => (a, counts a.group_id),
         ((selectPrev db pred anchor).map (·.group_id)).reverse) := by
  simp [search_alignments_rows]

lemma search_next_eq (db : List Alignment) (pred : Alignment → Bool) (anchor : Int)
    (counts : Int → Nat) :
    search_alignments_rows "next" db pred anchor counts
      = ((selectNext db pred anchor).map fun a => (a, counts a.group_id),
         (selectNext db pred anchor).map (·.group_id)) := by
  simp [search_alignments_rows]

lemma selectPrev_sorted (db : List Alignment) (pred : Alignment → Bool) (anchor : Int) :
    (selectPrev db pred anchor).Pairwise descKey :=
  (List.sorted_insertionSort descKey _).sublist (List.take_sublist _ _)

lemma selectNext_sorted (db : List Alignment) (pred : Alignment → Bool) (anchor : Int) :
    (selectNext db pred anchor).Pairwise ascKey :=
  (List.sorted_insertionSort ascKey _).sublist (List.take_sublist _ _)

lemma selectPrev_mem {db : List Alignment} {pred : Alignment → Bool} {anchor : Int}
    {r : Alignment} (h : r ∈ selectPrev db pred anchor) :
    r ∈ db ∧ pred r = true ∧ r.rowid_ordered < anchor := by
  have h1 : r ∈ List.insertionSort descKey
      (db.filter fun r => pred r && decide (r.rowid_ordered < anchor)) :=
    List.take_subset _ _ h
  have h2 : r ∈ db.filter fun r => pred r && decide (r.rowid_ordered < anchor) :=
    (List.perm_insertionSort descKey _).subset h1
  have h3 := List.mem_filter.mp h2
  have h4 : pred r = true ∧ r.rowid_ordered < anchor := by
    have h5 := h3.2
    simp only [Bool.and_eq_true, decide_eq_true_eq] at h5
    exact h5
  exact ⟨h3.1, h4.1, h4.2⟩

/-! ### Claim C4 -/

/-- C4: pages are handed to the caller in ascending ordering-key order
regardless of direction.  With direction `previous` the engine selects rows
with key strictly below the anchor, descending, limited to 50, then reverses
the in-memory row list, and reverses the collected group-id list in lockstep
(so it stays equal to the per-row group ids of the returned rows), and the
group-count attachment pairs each returned row with the count of its own
group id. -/
theorem C4_page_ordering :
    ∀ (db : List Alignment) (pred : Alignment → Bool) (anchor : Int) (counts : Int → Nat),
      ((search_alignments_rows "previous" db pred anchor counts).1.map
          fun p => p.1.rowid_ordered).Pairwise (· ≤ ·) ∧
      (search_alignments_rows "previous" db pred anchor counts).1.map Prod.fst
          = (selectPrev db pred anchor).reverse ∧
      (search_alignments_rows "previous" db pred anchor counts).2
          = (search_alignments_rows "previous" db pred anchor counts).1.map
              (fun p => p.1.group_id) ∧
      (∀ p ∈ (search_alignments_rows "previous" db pred anchor counts).1,
        p.2 = counts p.1.group_id ∧ p.1.rowid_ordered < anchor ∧ pred p.1 = true) ∧
      ((search_alignments_rows "next" db pred anchor counts).1.map
          fun p => p.1.rowid_ordered).Pairwise (· ≤ ·) := by
  intro db pred anchor counts
  have hsortedPrev : ((selectPrev db pred anchor).reverse).Pairwise ascKey := by
    rw [List.pairwise_reverse]
    exact selectPrev_sorted db pred anchor
  refine ⟨?_, ?_, ?_, ?_, ?_⟩
  · rw [search_prev_eq, List.map_map]
    exact hsortedPrev.map _ fun a b hab => hab
  · rw [search_prev_eq, List.map_map,
      show (Prod.fst ∘ fun a : Alignment => (a, counts a.group_id)) = id from rfl, List.map_id]
  · rw [search_prev_eq]
    simp [List.map_map, List.map_reverse]
  · intro p hp
    rw [search_prev_eq] at hp
    obtain ⟨a, ha, rfl⟩ := List.mem_map.mp hp
    have hmem : a ∈ selectPrev db pred anchor := List.mem_reverse.mp ha
    obtain ⟨_, hpred, hlt⟩ := selectPrev_mem hmem
    exact ⟨rfl, hlt, hpred⟩
  · rw [search_next_eq, List.map_map]
    exact (selectNext_sorted db pred anchor).map _ fun a b hab => hab

/-- C4, witness: a three-row table searched backwards from anchor 3 returns
the two qualifying rows in ascending key order with aligned counts. -/
theorem C4_witness :
    ((search_alignments_rows "previous"
        [⟨1, 10, 0⟩, ⟨3, 11, 0⟩, ⟨2, 12, 0⟩] (fun _ => true) 3 (fun g => g.toNat)).1.map
        fun p => p.1.rowid_ordered).Pairwise (· ≤ ·) ∧
    (⟨⟨1, 10, 0⟩, 10⟩ : Alignment × Nat) ∈ (search_alignments_rows "previous"
        [⟨1, 10, 0⟩, ⟨3, 11, 0⟩, ⟨2, 12, 0⟩] (fun _ => true) 3 (fun g => g.toNat)).1 ∧
    (⟨⟨1, 10, 0⟩, 10⟩ : Alignment × Nat).2 = 10 := by
  refine ⟨(C4_page_ordering [⟨1, 10, 0⟩, ⟨3, 11, 0⟩, ⟨2, 12, 0⟩] (fun _ => true) 3
    (fun g => g.toNat)).1, by decide, ?_⟩
  have h := (C4_page_ordering [⟨1, 10, 0⟩, ⟨3, 11, 0⟩, ⟨2, 12, 0⟩] (fun _ => true) 3
    (fun g => g.toNat)).2.2.2.1 ⟨⟨1, 10, 0⟩, 10⟩ (by decide)
  exact h.1

/-! ### Claim C8 -/

/-- The cursor construction of `search_alignments` (lines 306-313), as a
partial function: `none` models the uncaught `IndexError` raised by
`alignments[0]` when `page > 1` and the result list is empty (only the
`alignments[-1]` access for the next cursor is guarded by try/except). -/
def buildUrls (path : String) (page : Int) (alignments : List Alignment) :
    Option (String × String) :=
  let prevOpt : Option String :=
    if page > 1 then
      alignments.head?.map fun a =>
        path ++ "&page=" ++ toString (page - 1) ++ "&id_anchor="
          ++ toString a.rowid_ordered ++ "&direction=previous"
    else some ""
  match prevOpt with
  | none => none
  | some previous_url =>
    let next_url :=
      match alignments.getLast? with
      | some a => path ++ "&page=" ++ toString (page + 1) ++ "&id_anchor="
          ++ toString a.rowid_ordered ++ "&direction=next"
      | none => ""
    some (previous_url, next_url)

/-- C8: the previous-cursor half of the claim holds (page at most 1 always
yields an empty previous cursor, and then an empty result also yields an empty
next cursor), but the next-cursor half fails when the result set is empty and
page exceeds 1: the code raises an uncaught IndexError building previous_url
(alignments[0]) before next_url is ever computed, so no empty next cursor is
returned — the request fails instead. -/
theorem C8_cursor_edge_cases :
    buildUrls "/search_alignments/?db_table=x" 2 [] = none ∧
    (∀ (path : String) (k : Nat) (al : List Alignment),
      (buildUrls path (1 - (k : Int)) al).map Prod.fst = some "") ∧
    (∀ (path : String) (k : Nat), buildUrls path (1 - (k : Int)) [] = some ("", "")) := by
  refine ⟨rfl, fun path k al => ?_, fun path k => ?_⟩
  · unfold buildUrls
    rw [if_neg (by omega : ¬(1 - (k : Int) > 1))]
    rfl
  · unfold buildUrls
    rw [if_neg (by omega : ¬(1 - (k : Int) > 1))]
    rfl

/-! ### Time series (`generate_time_series`, lines 446-467) -/

/-- The gap-filling `while year > next_year` loop (lines 460-462), with fuel
`(year - next_year).toNat`, which bounds the iteration count whenever the
interval is at least 1. -/
def gapFillAux (interval : Int) : Nat → Int → Int → List (Int × Nat)
  | 0, _, _ => []
  | n + 1, nextYear, year =>
    if year > nextYear then (nextYear, 0) :: gapFillAux interval n (nextYear + interval) year
    else []

def gapFill (interval nextYear year : Int) : List (Int × Nat) :=
  gapFillAux interval (year - nextYear).toNat nextYear year

/-- One iteration of the result loop (lines 456-465).  The state is
`(results, total_results, next_year)`; a row whose bucket value is SQL NULL
(`year is None`) is skipped. -/
def tsStep (interval : Int) (st : List (Int × Nat) × Nat × Option Int)
    (row : Option Int × Nat) : List (Int × Nat) × Nat × Option Int :=
  match row.1 with
  | none => st
  | some year =>
    match st.2.2 with
    | none => (st.1 ++ [(year, row.2)], st.2.1 + row.2, some (year + interval))
    | some ny =>
      (st.1 ++ gapFill interval ny year ++ [(year, row.2)], st.2.1 + row.2,
        some (year + interval))

/-- `generate_time_series` after the SQL query: rows arrive as
`(bucket, count)` pairs ordered by bucket; returns `(results, counts)`. -/
def generate_time_series (interval : Int) (rows : List (Option Int × Nat)) :
    List (Int × Nat) × Nat :=
  let st := rows.foldl (tsStep interval) ([], 0, none)
  (st.1, st.2.1)

/-- The result list produced from a state whose `next_year` is `ly`. -/
def tsTail (interval : Int) : Int → List (Option Int × Nat) → List (Int × Nat)
  | _, [] => []
  | ly, (none, _) :: rest => tsTail interval ly rest
  | ly, (some y, c) :: rest => gapFill interval ly y ++ (y, c) :: tsTail interval (y + interval) rest

/-- The result list produced from the initial state (`next_year = None`). -/
def tsSpec (interval : Int) : List (Option Int × Nat) → List (Int × Nat)
  | [] => []
  | (none, _) :: rest => tsSpec interval rest
  | (some y, c) :: rest => (y, c) :: tsTail interval (y + interval) rest

/-- Sum of the counts of the non-null rows. -/
def sumCounts : List (Option Int × Nat) → Nat
  | [] => 0
  | (none, _) :: rest => sumCounts rest
  | (some _, c) :: rest => c + sumCounts rest

/-- Final `next_year` value of the loop. -/
def tsLast (interval : Int) : Option Int → List (Option Int × Nat) → Option Int
  | ny, [] => ny
  | ny, (none, _) :: rest => tsLast interval ny rest
  | _, (some y, _) :: rest => tsLast interval (some (y + interval)) rest

/-- Buckets with a null value (`filterMap Prod.fst` drops them). -/
def yearsOf (rows : List (Option Int × Nat)) : List Int := rows.filterMap Prod.fst

lemma ts_fold_some (i : Int) :
    ∀ (rows : List (Option Int × Nat)) (res : List (Int × Nat)) (tot : Nat) (ly : Int),
      rows.foldl (tsStep i) (res, tot, some ly)
        = (res ++ tsTail i ly rows, tot + sumCounts rows, tsLast i (some ly) rows) := by
  intro rows
  induction rows with
  | nil => intro res tot ly; simp [tsTail, sumCounts, tsLast]
  | cons r rest ih =>
    intro res tot ly
    obtain ⟨oy, c⟩ := r
    cases oy with
    | none =>
      rw [List.foldl_cons]
      show rest.foldl (tsStep i) (res, tot, some ly) = _
      rw [ih]
      simp [tsTail, sumCounts, tsLast]
    | some y =>
      rw [List.foldl_cons]
      show rest.foldl (tsStep i) (res ++ gapFill i ly y ++ [(y, c)], tot + c, some (y + i)) = _
      rw [ih]
      refine congrArg₂ _ ?_ (congrArg₂ _ ?_ ?_)
      · show res ++ gapFill i ly y ++ [(y, c)] ++ tsTail i (y + i) rest
            = res ++ tsTail i ly ((some y, c) :: rest)
        rw [show tsTail i ly ((some y, c) :: rest)
            = gapFill i ly y ++ (y, c) :: tsTail i (y + i) rest from rfl]
        simp [List.append_assoc]
      · show tot + c + sumCounts rest = tot + sumCounts ((some y, c) :: rest)
        rw [show sumCounts ((some y, c) :: rest) = c + sumCounts rest from rfl]
        omega
      · rfl

lemma ts_fold_none (i : Int) :
    ∀ (rows : List (Option Int × Nat)) (res : List (Int × Nat)) (tot : Nat),
      rows.foldl (tsStep i) (res, tot, none)
        = (res ++ tsSpec i rows, tot + sumCounts rows, tsLast i none rows) := by
  intro rows
  induction rows with
  | nil => intro res tot; simp [tsSpec, sumCounts, tsLast]
  | cons r rest ih =>
    intro res tot
    obtain ⟨oy, c⟩ := r
    cases oy with
    | none =>
      rw [List.foldl_cons]
      show rest.foldl (tsStep i) (res, tot, none) = _
      rw [ih]
      simp [tsSpec, sumCounts, tsLast]
    | some y =>
      rw [List.foldl_cons]
      show rest.foldl (tsStep i) (res ++ [(y, c)], tot + c, some (y + i)) = _
      rw [ts_fold_some]
      refine congrArg₂ _ ?_ (congrArg₂ _ ?_ ?_)
      · show res ++ [(y, c)] ++ tsTail i (y + i) rest = res ++ tsSpec i ((some y, c) :: rest)
        rw [show tsSpec i ((some y, c) :: rest) = (y, c) :: tsTail i (y + i) rest from rfl]
        simp
      · show tot + c + sumCounts rest = tot + sumCounts ((some y, c) :: rest)
        rw [show sumCounts ((some y, c) :: rest) = c + sumCounts rest from rfl]
        omega
      · rfl

lemma generate_eq (i : Int) (rows : List (Option Int × Nat)) :
    generate_time_series i rows = (tsSpec i rows, sumCounts rows) := by
  unfold generate_time_series
  rw [ts_fold_none]
  simp

lemma tsTail_filter (i : Int) :
    ∀ (rows : List (Option Int × Nat)) (ly : Int),
      tsTail i ly (rows.filter fun r => r.1.isSome) = tsTail i ly rows := by
  intro rows
  induction rows with
  | nil => intro ly; rfl
  | cons r rest ih =>
    intro ly
    obtain ⟨oy, c⟩ := r
    cases oy with
    | none => simpa [List.filter, tsTail] using ih ly
    | some y => simp [List.filter, tsTail, ih]

lemma tsSpec_filter (i : Int) :
    ∀ rows : List (Option Int × Nat),
      tsSpec i (rows.filter fun r => r.1.isSome) = tsSpec i rows := by
  intro rows
  induction rows with
  | nil => rfl
  | cons r rest ih =>
    obtain ⟨oy, c⟩ := r
    cases oy with
    | none => simpa [List.filter, tsSpec] using ih
    | some y => simp [List.filter, tsSpec, tsTail_filter]

lemma sumCounts_filter :
    ∀ rows : List (Option Int × Nat),
      sumCounts (rows.filter fun r => r.1.isSome) = sumCounts rows := by
  intro rows
  induction rows with
  | nil => rfl
  | cons r rest ih =>
    obtain ⟨oy, c⟩ := r
    cases oy with
    | none => simpa [List.filter, sumCounts] using ih
    | some y => simp [List.filter, sumCounts, ih]

lemma sumCounts_eq (rows : List (Option Int × Nat)) :
    sumCounts rows = ((rows.filter fun r => r.1.isSome).map Prod.snd).sum := by
  induction rows with
  | nil => rfl
  | cons r rest ih =>
    obtain ⟨oy, c⟩ := r
    cases oy with
    | none => simpa [List.filter, sumCounts] using ih
    | some y => simp [List.filter, sumCounts, ih]

lemma gapFillAux_snd (i : Int) :
    ∀ (n : Nat) (ny y : Int) (p : Int × Nat), p ∈ gapFillAux i n ny y → p.2 = 0 := by
  intro n
  induction n with
  | zero => intro ny y p hp; simp [gapFillAux] at hp
  | succ n ih =>
    intro ny y p hp
    rw [gapFillAux] at hp
    by_cases h : y > ny
    · rw [if_pos h] at hp
      rcases List.mem_cons.mp hp with rfl | hp
      · rfl
      · exact ih _ _ p hp
    · rw [if_neg h] at hp
      exact absurd hp (List.not_mem_nil p)

lemma tsTail_mem_of (i : Int) :
    ∀ (rows : List (Option Int × Nat)) (ly y : Int) (c : Nat),
      (some y, c) ∈ rows → (y, c) ∈ tsTail i ly rows := by
  intro rows
  induction rows with
  | nil => intro ly y c h; exact absurd h (List.not_mem_nil _)
  | cons r rest ih =>
    intro ly y c h
    obtain ⟨oy, c'⟩ := r
    rcases List.mem_cons.mp h with heq | htail
    · injection heq with h1 h2
      subst h1
      subst h2
      show (y, c) ∈ gapFill i ly y ++ (y, c) :: tsTail i (y + i) rest
      simp
    · cases oy with
      | none => exact ih ly y c htail
      | some y' =>
        show (y, c) ∈ gapFill i ly y' ++ (y', c') :: tsTail i (y' + i) rest
        simp only [List.mem_append, List.mem_cons]
        exact Or.inr (Or.inr (ih (y' + i) y c htail))

lemma tsTail_mem_inv (i : Int) :
    ∀ (rows : List (Option Int × Nat)) (ly : Int) (p : Int × Nat),
      p ∈ tsTail i ly rows → p.2 = 0 ∨ (some p.1, p.2) ∈ rows := by
  intro rows
  induction rows with
  | nil => intro ly p hp; simp [tsTail] at hp
  | cons r rest ih =>
    intro ly p hp
    obtain ⟨oy, c⟩ := r
    cases oy with
    | none =>
      rcases ih ly p hp with h | h
      · exact Or.inl h
      · exact Or.inr (List.mem_cons_of_mem _ h)
    | some y =>
      rw [show tsTail i ly ((some y, c) :: rest)
          = gapFill i ly y ++ (y, c) :: tsTail i (y + i) rest from rfl] at hp
      rcases List.mem_append.mp hp with hp | hp
      · exact Or.inl (gapFillAux_snd i _ _ _ p hp)
      · rcases List.mem_cons.mp hp with rfl | hp
        · exact Or.inr (List.mem_cons_self _ _)
        · rcases ih (y + i) p hp with h | h
          · exact Or.inl h
          · exact Or.inr (List.mem_cons_of_mem _ h)

lemma tsSpec_mem_of (i : Int) (rows : List (Option Int × Nat)) (y : Int) (c : Nat)
    (h : (some y, c) ∈ rows) : (y, c) ∈ tsSpec i rows := by
  induction rows with
  | nil => exact absurd h (List.not_mem_nil _)
  | cons r rest ih =>
    obtain ⟨oy, c'⟩ := r
    rcases List.mem_cons.mp h with heq | hmem
    · injection heq with h1 h2
      subst h1
      subst h2
      show (y, c) ∈ (y, c) :: tsTail i (y + i) rest
      simp
    · cases oy with
      | none => exact ih hmem
      | some y' =>
        show (y, c) ∈ (y', c') :: tsTail i (y' + i) rest
        simp only [List.mem_cons]
        exact Or.inr (tsTail_mem_of i rest (y' + i) y c hmem)

lemma tsSpec_mem_inv (i : Int) (rows : List (Option Int × Nat)) (p : Int × Nat)
    (hp : p ∈ tsSpec i rows) : p.2 = 0 ∨ (some p.1, p.2) ∈ rows := by
  induction rows with
  | nil => simp [tsSpec] at hp
  | cons r rest ih =>
    obtain ⟨oy, c⟩ := r
    cases oy with
    | none =>
      rcases ih hp with h | h
      · exact Or.inl h
      · exact Or.inr (List.mem_cons_of_mem _ h)
    | some y =>
      rw [show tsSpec i ((some y, c) :: rest) = (y, c) :: tsTail i (y + i) rest from rfl] at hp
      rcases List.mem_cons.mp hp with rfl | hp
      · exact Or.inr (List.mem_cons_self _ _)
      · rcases tsTail_mem_inv i rest (y + i) p hp with h | h
        · exact Or.inl h
        · exact Or.inr (List.mem_cons_of_mem _ h)

lemma gapFillAux_progression (i : Int) (hi : 1 ≤ i) :
    ∀ (k n : Nat) (ly : Int), (i * (k : Int)).toNat ≤ n →
      gapFillAux i n ly (ly + i * (k : Int))
        = (List.range k).map fun j : Nat => (ly + i * (j : Int), 0) := by
  intro k
  induction k with
  | zero =>
    intro n ly _
    cases n with
    | zero => simp [gapFillAux]
    | succ n =>
      show gapFillAux i (n + 1) ly (ly + i * ((0 : Nat) : Int)) = _
      rw [gapFillAux, if_neg (by push_cast; omega)]
      simp
  | succ k ih =>
    intro n ly hn
    have hik : (0 : Int) ≤ i * (k : Int) :=
      mul_nonneg (by omega) (Int.natCast_nonneg k)
    have hexp : i * (((k + 1 : Nat)) : Int) = i * (k : Int) + i := by push_cast; ring
    obtain ⟨m, rfl⟩ : ∃ m, n = m + 1 := ⟨n - 1, by omega⟩
    rw [gapFillAux, if_pos (by omega)]
    rw [show ly + i * (((k + 1 : Nat)) : Int) = (ly + i) + i * (k : Int) by rw [hexp]; ring]
    rw [ih m (ly + i) (by omega)]
    rw [List.range_succ_eq_map]
    simp only [List.map_cons, List.map_map, Nat.cast_zero, mul_zero, add_zero, List.cons.injEq,
      true_and]
    refine List.map_congr_left fun j _ => ?_
    simp only [Function.comp]
    congr 1
    push_cast
    ring

lemma gapFill_progression (i : Int) (hi : 1 ≤ i) (k : Nat) (ly : Int) :
    gapFill i ly (ly + i * (k : Int))
      = (List.range k).map fun j : Nat => (ly + i * (j : Int), 0) := by
  unfold gapFill
  exact gapFillAux_progression i hi k _ ly (by
    rw [show ly + i * (k : Int) - ly = i * (k : Int) by ring])

lemma chain_progression (i : Int) :
    ∀ (k : Nat) (a : Int),
      List.Chain (fun x y => y = x + i) a
        (((List.range k).map fun j : Nat => a + i + i * (j : Int)) ++ [a + i + i * (k : Int)]) := by
  intro k
  induction k with
  | zero =>
    intro a
    simp only [List.range_zero, List.map_nil, List.nil_append]
    exact List.Chain.cons (by push_cast; ring) List.Chain.nil
  | succ k ih =>
    intro a
    rw [List.range_succ_eq_map]
    simp only [List.map_cons, List.map_map, Nat.cast_zero, mul_zero, add_zero, List.cons_append]
    refine List.Chain.cons rfl ?_
    have h := ih (a + i)
    have hmap : ((List.range k).map fun j : Nat => (a + i) + i + i * (j : Int))
        = (List.range k).map ((fun j : Nat => a + i + i * (j : Int)) ∘ Nat.succ) := by
      refine List.map_congr_left fun j _ => ?_
      simp only [Function.comp]
      push_cast
      ring
    have hlast : (a + i) + i + i * (k : Int) = a + i + i * (((k + 1 : Nat)) : Int) := by
      push_cast
      ring
    rw [hmap, hlast] at h
    exact h

lemma yearsOf_cons_none (c : Nat) (rest : List (Option Int × Nat)) :
    yearsOf ((none, c) :: rest) = yearsOf rest := by
  simp [yearsOf]

lemma yearsOf_cons_some (y : Int) (c : Nat) (rest : List (Option Int × Nat)) :
    yearsOf ((some y, c) :: rest) = y :: yearsOf rest := by
  simp [yearsOf]

lemma tsTail_chain (i : Int) (hi : 1 ≤ i) :
    ∀ (rows : List (Option Int × Nat)) (ly : Int),
      (∀ y ∈ yearsOf rows, i ∣ y) → i ∣ ly →
      (yearsOf rows).Pairwise (· < ·) →
      (∀ y ∈ yearsOf rows, ly ≤ y) →
      List.Chain (fun a b => b = a + i) (ly - i) ((tsTail i ly rows).map Prod.fst) := by
  intro rows
  induction rows with
  | nil => intro ly _ _ _ _; exact List.Chain.nil
  | cons r rest ih =>
    intro ly hdvd hly hpair hge
    obtain ⟨oy, c⟩ := r
    cases oy with
    | none =>
      rw [yearsOf_cons_none] at hdvd hpair hge
      exact ih ly hdvd hly hpair hge
    | some y =>
      rw [yearsOf_cons_some] at hdvd hpair hge
      have hy : i ∣ y := hdvd y (by simp)
      have hylow : ly ≤ y := hge y (by simp)
      obtain ⟨d, hd⟩ : i ∣ (y - ly) := dvd_sub hy hly
      have hipos : (0 : Int) < i := by omega
      have hd0 : 0 ≤ d := by nlinarith
      obtain ⟨k, rfl⟩ : ∃ k : Nat, d = (k : Int) := ⟨d.toNat, (Int.toNat_of_nonneg hd0).symm⟩
      have hyk : y = ly + i * (k : Int) := by omega
      show List.Chain _ (ly - i)
        ((gapFill i ly y ++ (y, c) :: tsTail i (y + i) rest).map Prod.fst)
      rw [List.map_append, List.map_cons]
      rw [List.chain_split]
      constructor
      · rw [hyk, gapFill_progression i hi k ly, List.map_map]
        have hfix : ((List.range k).map
              (Prod.fst ∘ fun j : Nat => (ly + i * (j : Int), (0 : Nat))))
            = (List.range k).map fun j : Nat => (ly - i) + i + i * (j : Int) := by
          refine List.map_congr_left fun j _ => ?_
          simp only [Function.comp]
          ring
        rw [hfix, show ly + i * (k : Int) = (ly - i) + i + i * (k : Int) by ring]
        exact chain_progression i k (ly - i)
      · have hrest : ∀ y' ∈ yearsOf rest, y + i ≤ y' := by
          intro y' hy'
          have hlt : y < y' := (List.pairwise_cons.mp hpair).1 y' hy'
          have hdy' : i ∣ y' := hdvd y' (by simp [hy'])
          obtain ⟨e, he⟩ : i ∣ (y' - y) := dvd_sub hdy' hy
          have he1 : 1 ≤ e := by nlinarith
          nlinarith
        have h := ih (y + i) (fun y' hy' => hdvd y' (by simp [hy']))
          (dvd_add hy dvd_rfl) (List.pairwise_cons.mp hpair).2 hrest
        rwa [show y + i - i = y by ring] at h

lemma tsSpec_chain (i : Int) (hi : 1 ≤ i) :
    ∀ rows : List (Option Int × Nat),
      (∀ y ∈ yearsOf rows, i ∣ y) →
      (yearsOf rows).Pairwise (· < ·) →
      List.Chain' (fun a b => b = a + i) ((tsSpec i rows).map Prod.fst) := by
  intro rows
  induction rows with
  | nil => intro _ _; exact trivial
  | cons r rest ih =>
    intro hdvd hpair
    obtain ⟨oy, c⟩ := r
    cases oy with
    | none =>
      rw [yearsOf_cons_none] at hdvd hpair
      exact ih hdvd hpair
    | some y =>
      rw [yearsOf_cons_some] at hdvd hpair
      have hy : i ∣ y := hdvd y (by simp)
      have hrest : ∀ y' ∈ yearsOf rest, y + i ≤ y' := by
        intro y' hy'
        have hlt : y < y' := (List.pairwise_cons.mp hpair).1 y' hy'
        have hdy' : i ∣ y' := hdvd y' (by simp [hy'])
        obtain ⟨e, he⟩ : i ∣ (y' - y) := dvd_sub hdy' hy
        have he1 : 1 ≤ e := by nlinarith
        nlinarith
      show List.Chain' _ (((y, c) :: tsTail i (y + i) rest).map Prod.fst)
      rw [List.map_cons]
      show List.Chain _ y ((tsTail i (y + i) rest).map Prod.fst)
      have h := tsTail_chain i hi rest (y + i) (fun y' hy' => hdvd y' (by simp [hy']))
        (dvd_add hy dvd_rfl) (List.pairwise_cons.mp hpair).2 hrest
      rwa [show y + i - i = y by ring] at h

/-! ### Claim C5 -/

/-- C5: for rows as delivered by the bucketing SQL (distinct interval starts,
multiples of the interval, ascending), every missing interval between two
consecutive observed buckets is synthesized with count 0, so the returned
sequence is contiguous (consecutive years differ by exactly the interval,
hence strictly increasing for a positive interval); rows with a null bucket
value contribute neither an entry (removing them changes nothing) nor to the
returned total, which is the sum of the non-null bucket counts; observed
buckets keep their counts and every other returned entry has count 0. -/
theorem C5_time_series_gap_fill :
    ∀ (interval : Int) (rows : List (Option Int × Nat)), 1 ≤ interval →
      (∀ y ∈ yearsOf rows, interval ∣ y) →
      (yearsOf rows).Pairwise (· < ·) →
      generate_time_series interval rows
          = generate_time_series interval (rows.filter fun r => r.1.isSome) ∧
        List.Chain' (fun a b => b = a + interval)
          ((generate_time_series interval rows).1.map Prod.fst) ∧
        (generate_time_series interval rows).2
          = ((rows.filter fun r => r.1.isSome).map Prod.snd).sum ∧
        (∀ (y : Int) (c : Nat), (some y, c) ∈ rows →
          (y, c) ∈ (generate_time_series interval rows).1) ∧
        (∀ p ∈ (generate_time_series interval rows).1, p.2 = 0 ∨ (some p.1, p.2) ∈ rows) := by
  intro interval rows hi hdvd hpair
  rw [generate_eq, generate_eq]
  refine ⟨?_, ?_, ?_, ?_, ?_⟩
  · rw [tsSpec_filter, sumCounts_filter]
  · exact tsSpec_chain interval hi rows hdvd hpair
  · exact sumCounts_eq rows
  · intro y c h
    exact tsSpec_mem_of interval rows y c h
  · intro p hp
    exact tsSpec_mem_inv interval rows p hp

/-- C5, witness: interval 10 over observed buckets 1990 (count 2) and 2020
(count 1) produces zero-filled entries at 2000 and 2010, total 3 — the
spec's own test vector. -/
theorem C5_witness :
    List.Chain' (fun a b => b = a + 10)
        ((generate_time_series 10 [(some 1990, 2), (some 2020, 1)]).1.map Prod.fst) ∧
      generate_time_series 10 [(some 1990, 2), (some 2020, 1)]
        = ([(1990, 2), (2000, 0), (2010, 0), (2020, 1)], 3) := by
  have h := C5_time_series_gap_fill 10 [(some 1990, 2), (some 2020, 1)] (by decide)
    (by decide) (by decide)
  exact ⟨h.2.1, by decide⟩

/-! ### Facet length bucketing (`facets`, lines 495-516) -/

/-- `Counter` update `counts[key] += n`: first-insertion order preserved,
missing keys start at 0. -/
def counterAdd : List (String × Nat) → String → Nat → List (String × Nat)
  | [], k, n => [(k, n)]
  | (k', v) :: rest, k, n =>
    if k' = k then (k', v + n) :: rest else (k', v) :: counterAdd rest k n

/-- `Counter` read-out. -/
def counterGet : List (String × Nat) → String → Nat
  | [], _ => 0
  | (k, v) :: rest, label => if k = label then v else counterGet rest label

/-- The length-bucketing body of `facets` (lines 497-511): note the first
comparison is a plain `if` (not `elif`), so `length < 26` feeds `1-25` and
the remaining chain starts again at `25 < length < 101`. -/
def lengthBucketStep (counts : List (String × Nat)) (len : Int) (count : Nat) :
    List (String × Nat) :=
  let counts := if len < 26 then counterAdd counts "1-25" count else counts
  if 25 < len ∧ len < 101 then counterAdd counts "26-100" count
  else if 100 < len ∧ len < 251 then counterAdd counts "101-250" count
  else if 250 < len ∧ len < 501 then counterAdd counts "251-500" count
  else if 500 < len ∧ len < 1001 then counterAdd counts "501-1000" count
  else if 1000 < len ∧ len < 3001 then counterAdd counts "1001-3000" count
  else if len > 3000 then counterAdd counts "3001-" count
  else counts

/-- The bucket counter accumulated over all `(passage_length, count)` rows. -/
def facetLengthCounts (rows : List (Int × Nat)) : List (String × Nat) :=
  rows.foldl (fun cs p => lengthBucketStep cs p.1 p.2) []

lemma counterGet_add_same (l : List (String × Nat)) (k : String) (n : Nat) :
    counterGet (counterAdd l k n) k = counterGet l k + n := by
  induction l with
  | nil => simp [counterAdd, counterGet]
  | cons p rest ih =>
    obtain ⟨k', v⟩ := p
    by_cases h : k' = k
    · subst h
      simp [counterAdd, counterGet]
    · simp [counterAdd, counterGet, h, ih]

lemma counterGet_add_other (l : List (String × Nat)) (k k' : String) (n : Nat)
    (h : k ≠ k') : counterGet (counterAdd l k n) k' = counterGet l k' := by
  induction l with
  | nil => simp [counterAdd, counterGet, h]
  | cons p rest ih =>
    obtain ⟨k0, v⟩ := p
    by_cases h0 : k0 = k
    · subst h0
      simp [counterAdd, counterGet, h]
    · simp [counterAdd, counterGet, h0, ih]

lemma lengthBucketStep_25 (counts : List (String × Nat)) (c : Nat) :
    lengthBucketStep counts 25 c = counterAdd counts "1-25" c := by
  unfold lengthBucketStep
  norm_num

/-! ### Claim C6 -/

/-- C6, counterexample: the claim says a row of length exactly 25 is counted
in neither the `1-25` nor the `26-100` bucket; but the first comparison
`length < 26` is satisfied by 25, so the row lands in `1-25` (with count 1
here, not 0). -/
theorem C6_counterexample :
    counterGet (facetLengthCounts [(25, 1)]) "1-25" = 1 ∧
      ¬(counterGet (facetLengthCounts [(25, 1)]) "1-25" = 0 ∧
        counterGet (facetLengthCounts [(25, 1)]) "26-100" = 0) := by
  constructor <;> decide

/-- C6 (amended): a row whose length value is exactly 25 is counted in the
`1-25` bucket (the guard is `length < 26`, a plain `if`) and not in the
`26-100` bucket (whose guard `25 < length < 101` excludes it): processing
such a row adds its count to `1-25` and leaves `26-100` unchanged. -/
theorem C6_boundary_25 :
    ∀ (counts : List (String × Nat)) (c : Nat),
      counterGet (lengthBucketStep counts 25 c) "1-25" = counterGet counts "1-25" + c ∧
        counterGet (lengthBucketStep counts 25 c) "26-100" = counterGet counts "26-100" := by
  intro counts c
  rw [lengthBucketStep_25, counterGet_add_same,
    counterGet_add_other _ _ _ _ (by decide)]
  exact ⟨rfl, rfl⟩

/-! ### Group resolution (`get_passage_group`, lines 529-598) -/

/-- The columns of an alignment-table (or groups-table) row that the group
resolver reads; `payload` stands for the remaining columns carried along in
the record dictionaries. -/
structure GRow where
  source_author : String
  source_title : String
  source_year : Int
  target_title : String
  target_year : Int
  payload : Nat
deriving DecidableEq, Repr

inductive Side where
  | source | target
deriving DecidableEq, Repr

/-- One candidate record: the `{**data, "year": ..., "title": ...,
"direction": ...}` dictionaries built at lines 551-584. -/
structure GRec where
  title : String
  year : Int
  dir : Side
  row : GRow
deriving DecidableEq, Repr

/-- The candidate records one member row contributes, in processing order:
the source side only when both author and title differ from the canonical
passage (line 550), the target side always (lines 567-584). -/
def rowRecs (orig : GRow) (row : GRow) : List GRec :=
  (if row.source_author ≠ orig.source_author ∧ row.source_title ≠ orig.source_title then
    [⟨row.source_title, row.source_year, Side.source, row⟩]
  else [])
    ++ [⟨row.target_title, row.target_year, Side.target, row⟩]

def occurrences (orig : GRow) (rows : List GRow) : List GRec :=
  rows.flatMap (rowRecs orig)

/-- One `filtered_titles` update: insert under the record's title, replacing
the stored record only when the new year is strictly smaller (lines 552-584);
Python dict update keeps the key's original position. -/
def updateTitle : List (String × GRec) → GRec → List (String × GRec)
  | [], r => [(r.title, r)]
  | (k, old) :: rest, r =>
    if k = r.title then (if old.year > r.year then (k, r) else (k, old)) :: rest
    else (k, old) :: updateTitle rest r

def filteredTitles (orig : GRow) (rows : List GRow) : List (String × GRec) :=
  (occurrences orig rows).foldl updateTitle []

/-- One step of the year partition (lines 588-592): append the record to its
year's list, keeping first-insertion order of years. -/
def addYear : List (Int × List GRec) → GRec → List (Int × List GRec)
  | [], r => [(r.year, [r])]
  | (y, rs) :: rest, r =>
    if y = r.year then (y, rs ++ [r]) :: rest else (y, rs) :: addYear rest r

def byYear (recs : List GRec) : List (Int × List GRec) := recs.foldl addYear []

/-- `value.sort(key=lambda x: x["title"], reverse=True)` (line 594). -/
def titleDesc (a b : GRec) : Prop := b.title ≤ a.title

/-- `passage_list.sort(key=lambda x: x["year"])` (line 596). -/
def yearAsc (a b : Int × List GRec) : Prop := a.1 ≤ b.1

instance : DecidableRel titleDesc := fun a b =>
  inferInstanceAs (Decidable (b.title ≤ a.title))

instance : DecidableRel yearAsc := fun a b => inferInstanceAs (Decidable (a.1 ≤ b.1))

instance : IsTotal GRec titleDesc := ⟨fun a b => le_total b.title a.title⟩

instance : IsTotal (Int × List GRec) yearAsc := ⟨fun a b => le_total a.1 b.1⟩

instance : IsTrans GRec titleDesc := ⟨fun _ _ _ hab hbc => le_trans hbc hab⟩

instance : IsTrans (Int × List GRec) yearAsc := ⟨fun _ _ _ hab hbc => le_trans hab hbc⟩

/-- The `passageList` value returned by `get_passage_group` (lines 586-597):
deduplicate by title keeping the earliest year, partition by year, sort each
year's records by title descending, sort the partition by year ascending. -/
def passageList (orig : GRow) (rows : List GRow) : List (Int × List GRec) :=
  List.insertionSort yearAsc
    ((byYear ((filteredTitles orig rows).map Prod.snd)).map
      fun p => (p.1, List.insertionSort titleDesc p.2))

/-- How a failure surfaces to the HTTP client. -/
inductive ApiFailure where
  | serverError | notFound
deriving DecidableEq, Repr

/-- `get_passage_group` (lines 529-598) over table models (lists of
`(group_id, row)` pairs).  When the groups table has no row for the id,
`cursor.fetchone()` returns `None` and line 544 raises an uncaught
`AttributeError` on `None.items()`, which FastAPI surfaces as a 500-class
server error; `ApiFailure.notFound` is the 404-class failure the spec
describes, which the code never produces. -/
def get_passage_group (groupsTable alignTable : List (Int × GRow)) (gid : Int) :
    Except ApiFailure (List (Int × List GRec) × GRow) :=
  match (groupsTable.filter fun p => decide (p.1 = gid)).head? with
  | none => Except.error ApiFailure.serverError
  | some p =>
    let rows := (alignTable.filter fun q => decide (q.1 = gid)).map Prod.snd
    Except.ok (passageList p.2 rows, p.2)

/-! ### Claim C9 -/

/-- C9, counterexample: with an empty groups-index table, resolution of group
5 does not fail with a 404-equivalent NotFoundError; it fails with an
uncaught AttributeError (`None.items()`), a 500-class server error. -/
theorem C9_counterexample :
    get_passage_group [] [] 5 = Except.error ApiFailure.serverError ∧
      get_passage_group [] [] 5 ≠ Except.error ApiFailure.notFound := by
  refine ⟨rfl, fun h => ?_⟩
  exact ApiFailure.noConfusion (Except.error.inj h)

/-- C9 (amended): whenever the groups-index table contains no row for the
requested group id, group resolution fails — but with an uncaught
AttributeError on `None.items()`, surfaced as a 500-class server error, not
as a 404-equivalent NotFoundError. -/
theorem C9_missing_group_fails :
    ∀ (groupsTable alignTable : List (Int × GRow)) (gid : Int),
      (groupsTable.filter fun p => decide (p.1 = gid)) = [] →
      get_passage_group groupsTable alignTable gid = Except.error ApiFailure.serverError ∧
        get_passage_group groupsTable alignTable gid ≠ Except.error ApiFailure.notFound := by
  intro groupsTable alignTable gid h
  unfold get_passage_group
  rw [h]
  exact ⟨rfl, fun hx => ApiFailure.noConfusion (Except.error.inj hx)⟩

/-- C9, witness: a groups table holding only group 7 fails on group 5 with
the server error. -/
theorem C9_witness :
    get_passage_group [(7, ⟨"a", "t", 1800, "t2", 1900, 0⟩)] [] 5
        = Except.error ApiFailure.serverError := by
  exact (C9_missing_group_fails [(7, ⟨"a", "t", 1800, "t2", 1900, 0⟩)] [] 5 (by decide)).1

/-! ### Dedup-map lemmas for C7 -/

/-- First-match association lookup in the `filtered_titles` dictionary. -/
def mget : List (String × GRec) → String → Option GRec
  | [], _ => none
  | (k, v) :: rest, t => if k = t then some v else mget rest t

lemma mem_of_mget : ∀ {m : List (String × GRec)} {t : String} {rec : GRec},
    mget m t = some rec → (t, rec) ∈ m := by
  intro m
  induction m with
  | nil => intro t rec h; exact absurd h (by simp [mget])
  | cons p rest ih =>
    intro t rec h
    obtain ⟨k, v⟩ := p
    rw [mget] at h
    by_cases hk : k = t
    · rw [if_pos hk] at h
      obtain rfl := Option.some.inj h
      subst hk
      exact List.mem_cons_self _ _
    · rw [if_neg hk] at h
      exact List.mem_cons_of_mem _ (ih h)

lemma mget_of_mem : ∀ {m : List (String × GRec)} {t : String} {rec : GRec},
    (m.map Prod.fst).Nodup → (t, rec) ∈ m → mget m t = some rec := by
  intro m
  induction m with
  | nil => intro t rec _ h; exact absurd h (List.not_mem_nil _)
  | cons p rest ih =>
    intro t rec hnd h
    obtain ⟨k, v⟩ := p
    rw [List.map_cons, List.nodup_cons] at hnd
    rcases List.mem_cons.mp h with heq | htail
    · injection heq with h1 h2
      subst h1
      subst h2
      rw [mget, if_pos rfl]
    · rw [mget]
      have hk : k ≠ t := by
        rintro rfl
        exact hnd.1 (List.mem_map.mpr ⟨(k, rec), htail, rfl⟩)
      rw [if_neg hk]
      exact ih hnd.2 htail

lemma updateTitle_keys_in : ∀ (m : List (String × GRec)) (r : GRec),
    r.title ∈ m.map Prod.fst → (updateTitle m r).map Prod.fst = m.map Prod.fst := by
  intro m
  induction m with
  | nil => intro r h; exact absurd h (by simp)
  | cons p rest ih =>
    intro r h
    obtain ⟨k, old⟩ := p
    rw [updateTitle]
    by_cases hk : k = r.title
    · rw [if_pos hk]
      by_cases hy : old.year > r.year <;> simp [hy]
    · rw [if_neg hk]
      rw [List.map_cons] at h
      rcases List.mem_cons.mp h with heq | htail
      · exact absurd heq.symm hk
      · simp [ih r htail]

lemma updateTitle_keys_notin : ∀ (m : List (String × GRec)) (r : GRec),
    r.title ∉ m.map Prod.fst → updateTitle m r = m ++ [(r.title, r)] := by
  intro m
  induction m with
  | nil => intro r _; rfl
  | cons p rest ih =>
    intro r h
    obtain ⟨k, old⟩ := p
    rw [List.map_cons] at h
    have hk : k ≠ r.title := fun he => h (by simp [he])
    rw [updateTitle, if_neg hk, ih r (fun htail => h (by simp [htail]))]
    rfl

lemma updateTitle_get_self : ∀ (m : List (String × GRec)) (r : GRec),
    mget (updateTitle m r) r.title
      = some (match mget m r.title with
              | none => r
              | some old => if old.year > r.year then r else old) := by
  intro m
  induction m with
  | nil => intro r; simp [updateTitle, mget]
  | cons p rest ih =>
    intro r
    obtain ⟨k, old⟩ := p
    rw [updateTitle]
    by_cases hk : k = r.title
    · rw [if_pos hk]
      by_cases hy : old.year > r.year
      · rw [if_pos hy]
        rw [show mget ((k, r) :: rest) r.title = some r from by rw [mget, if_pos hk]]
        rw [show mget ((k, old) :: rest) r.title = some old from by rw [mget, if_pos hk]]
        simp [hy]
      · rw [if_neg hy]
        rw [show mget ((k, old) :: rest) r.title = some old from by rw [mget, if_pos hk]]
        simp [hy]
    · rw [if_neg hk]
      rw [show mget ((k, old) :: updateTitle rest r) r.title
          = mget (updateTitle rest r) r.title from by rw [mget, if_neg hk]]
      rw [show mget ((k, old) :: rest) r.title = mget rest r.title from by
        rw [mget, if_neg hk]]
      exact ih r

lemma updateTitle_get_other : ∀ (m : List (String × GRec)) (r : GRec) (t : String),
    t ≠ r.title → mget (updateTitle m r) t = mget m t := by
  intro m
  induction m with
  | nil =>
    intro r t ht
    rw [updateTitle]
    rw [show mget [(r.title, r)] t = none from by rw [mget, if_neg (Ne.symm ht)]; rfl]
    rfl
  | cons p rest ih =>
    intro r t ht
    obtain ⟨k, old⟩ := p
    rw [updateTitle]
    by_cases hk : k = r.title
    · rw [if_pos hk]
      by_cases hy : old.year > r.year
      · rw [if_pos hy]
        have hkt : k ≠ t := by rw [hk]; exact Ne.symm ht
        rw [show mget ((k, r) :: rest) t = mget rest t from by rw [mget, if_neg hkt]]
        rw [show mget ((k, old) :: rest) t = mget rest t from by rw [mget, if_neg hkt]]
      · rw [if_neg hy]
    · rw [if_neg hk]
      by_cases hkt : k = t
      · rw [show mget ((k, old) :: updateTitle rest r) t = some old from by
          rw [mget, if_pos hkt]]
        rw [show mget ((k, old) :: rest) t = some old from by rw [mget, if_pos hkt]]
      · rw [show mget ((k, old) :: updateTitle rest r) t = mget (updateTitle rest r) t from by
          rw [mget, if_neg hkt]]
        rw [show mget ((k, old) :: rest) t = mget rest t from by rw [mget, if_neg hkt]]
        exact ih r t ht

/-- Invariant of the `filtered_titles` fold: keys are distinct, every stored
record is keyed by its own title, is one of the processed occurrences, and
has the minimal year among processed occurrences of that title; every
processed occurrence's title is present. -/
def TitleInv (occs : List GRec) (m : List (String × GRec)) : Prop :=
  (m.map Prod.fst).Nodup ∧
  (∀ (t : String) (rec : GRec), mget m t = some rec →
    rec.title = t ∧ rec ∈ occs ∧ ∀ o ∈ occs, o.title = t → rec.year ≤ o.year) ∧
  (∀ o ∈ occs, ∃ rec, mget m o.title = some rec)

lemma titleInv_nil : TitleInv [] [] := by
  refine ⟨List.nodup_nil, ?_, ?_⟩
  · intro t rec h
    exact absurd h (by simp [mget])
  · intro o ho
    exact absurd ho (List.not_mem_nil o)

lemma titleInv_step (occs : List GRec) (m : List (String × GRec)) (r : GRec)
    (h : TitleInv occs m) : TitleInv (occs ++ [r]) (updateTitle m r) := by
  obtain ⟨hnd, hrec, hcomp⟩ := h
  refine ⟨?_, ?_, ?_⟩
  · by_cases hin : r.title ∈ m.map Prod.fst
    · rw [updateTitle_keys_in m r hin]
      exact hnd
    · rw [updateTitle_keys_notin m r hin, List.map_append]
      simp [List.nodup_append, hnd, hin]
  · intro t rec hget
    by_cases ht : t = r.title
    · subst ht
      cases hm : mget m r.title with
      | none =>
        rw [updateTitle_get_self, hm] at hget
        obtain rfl := Option.some.inj hget
        refine ⟨rfl, by simp, ?_⟩
        intro o ho hot
        rcases List.mem_append.mp ho with ho | ho
        · obtain ⟨rec', hrec'⟩ := hcomp o ho
          rw [hot, hm] at hrec'
          exact absurd hrec' (by simp)
        · simp only [List.mem_singleton] at ho
          subst ho
          exact le_refl _
      | some old =>
        rw [updateTitle_get_self, hm] at hget
        dsimp only at hget
        have hold := hrec r.title old hm
        by_cases hy : old.year > r.year
        · rw [if_pos hy] at hget
          obtain rfl := Option.some.inj hget
          refine ⟨rfl, by simp, ?_⟩
          intro o ho hot
          rcases List.mem_append.mp ho with ho | ho
          · exact le_trans (le_of_lt hy) (hold.2.2 o ho hot)
          · simp only [List.mem_singleton] at ho
            subst ho
            exact le_refl _
        · rw [if_neg hy] at hget
          obtain rfl := Option.some.inj hget
          refine ⟨hold.1, List.mem_append_left _ hold.2.1, ?_⟩
          intro o ho hot
          rcases List.mem_append.mp ho with ho | ho
          · exact hold.2.2 o ho hot
          · simp only [List.mem_singleton] at ho
            subst ho
            exact le_of_not_lt hy
    · rw [updateTitle_get_other m r t ht] at hget
      have hp := hrec t rec hget
      refine ⟨hp.1, List.mem_append_left _ hp.2.1, ?_⟩
      intro o ho hot
      rcases List.mem_append.mp ho with ho | ho
      · exact hp.2.2 o ho hot
      · simp only [List.mem_singleton] at ho
        subst ho
        exact absurd hot.symm ht
  · intro o ho
    rcases List.mem_append.mp ho with ho | ho
    · obtain ⟨rec, hrec'⟩ := hcomp o ho
      by_cases ht : o.title = r.title
      · rw [ht, updateTitle_get_self]
        exact ⟨_, rfl⟩
      · rw [updateTitle_get_other m r _ ht]
        exact ⟨rec, hrec'⟩
    · simp only [List.mem_singleton] at ho
      subst ho
      rw [updateTitle_get_self]
      exact ⟨_, rfl⟩

lemma titleInv_fold : ∀ (occs2 occs1 : List GRec) (m : List (String × GRec)),
    TitleInv occs1 m → TitleInv (occs1 ++ occs2) (occs2.foldl updateTitle m) := by
  intro occs2
  induction occs2 with
  | nil => intro occs1 m h; simpa using h
  | cons r rest ih =>
    intro occs1 m h
    have h2 := ih (occs1 ++ [r]) (updateTitle m r) (titleInv_step occs1 m r h)
    rw [List.append_assoc] at h2
    simpa using h2

lemma titleInv_filtered (orig : GRow) (rows : List GRow) :
    TitleInv (occurrences orig rows) (filteredTitles orig rows) := by
  have h := titleInv_fold (occurrences orig rows) [] [] titleInv_nil
  simpa [filteredTitles] using h

/-! ### Year-partition lemmas for C7 -/

open List in
lemma addYear_flat : ∀ (l : List (Int × List GRec)) (r : GRec),
    (addYear l r).flatMap Prod.snd ~ l.flatMap Prod.snd ++ [r] := by
  intro l
  induction l with
  | nil => intro r; simp [addYear]
  | cons p rest ih =>
    intro r
    obtain ⟨y, rs⟩ := p
    rw [addYear]
    by_cases hy : y = r.year
    · rw [if_pos hy, List.flatMap_cons, List.flatMap_cons]
      calc (rs ++ [r]) ++ rest.flatMap Prod.snd
          = rs ++ ([r] ++ rest.flatMap Prod.snd) := by rw [List.append_assoc]
        _ ~ rs ++ (rest.flatMap Prod.snd ++ [r]) :=
            List.Perm.append_left rs List.perm_append_comm
        _ = (rs ++ rest.flatMap Prod.snd) ++ [r] := by rw [List.append_assoc]
    · rw [if_neg hy, List.flatMap_cons, List.flatMap_cons]
      calc rs ++ (addYear rest r).flatMap Prod.snd
          ~ rs ++ (rest.flatMap Prod.snd ++ [r]) := List.Perm.append_left rs (ih r)
        _ = (rs ++ rest.flatMap Prod.snd) ++ [r] := by rw [List.append_assoc]

open List in
lemma byYear_flat (recs : List GRec) : (byYear recs).flatMap Prod.snd ~ recs := by
  suffices h : ∀ (rs : List GRec) (l : List (Int × List GRec)),
      (rs.foldl addYear l).flatMap Prod.snd ~ l.flatMap Prod.snd ++ rs by
    simpa [byYear] using h recs []
  intro rs
  induction rs with
  | nil => intro l; simp
  | cons r rest ih =>
    intro l
    calc (rest.foldl addYear (addYear l r)).flatMap Prod.snd
        ~ (addYear l r).flatMap Prod.snd ++ rest := ih (addYear l r)
      _ ~ (l.flatMap Prod.snd ++ [r]) ++ rest :=
          List.Perm.append_right rest (addYear_flat l r)
      _ = l.flatMap Prod.snd ++ (r :: rest) := by simp

lemma addYear_years (l : List (Int × List GRec)) (r : GRec)
    (h : ∀ p ∈ l, ∀ x ∈ p.2, x.year = p.1) :
    ∀ p ∈ addYear l r, ∀ x ∈ p.2, x.year = p.1 := by
  induction l with
  | nil =>
    intro p hp x hx
    simp only [addYear, List.mem_singleton] at hp
    subst hp
    simp only [List.mem_singleton] at hx
    subst hx
    rfl
  | cons q rest ih =>
    intro p hp x hx
    obtain ⟨y, rs⟩ := q
    rw [addYear] at hp
    by_cases hy : y = r.year
    · rw [if_pos hy] at hp
      rcases List.mem_cons.mp hp with rfl | hp
      · rcases List.mem_append.mp hx with hx | hx
        · exact h (y, rs) (List.mem_cons_self _ _) x hx
        · simp only [List.mem_singleton] at hx
          subst hx
          exact hy.symm
      · exact h p (List.mem_cons_of_mem _ hp) x hx
    · rw [if_neg hy] at hp
      rcases List.mem_cons.mp hp with rfl | hp
      · exact h (y, rs) (List.mem_cons_self _ _) x hx
      · exact ih (fun q hq => h q (List.mem_cons_of_mem _ hq)) p hp x hx

lemma addYear_keys : ∀ (l : List (Int × List GRec)) (r : GRec),
    (addYear l r).map Prod.fst
      = if r.year ∈ l.map Prod.fst then l.map Prod.fst else l.map Prod.fst ++ [r.year] := by
  intro l
  induction l with
  | nil => intro r; simp [addYear]
  | cons q rest ih =>
    intro r
    obtain ⟨y, rs⟩ := q
    rw [addYear]
    by_cases hy : y = r.year
    · rw [if_pos hy, List.map_cons, List.map_cons]
      rw [if_pos (by simp [hy])]
    · rw [if_neg hy, List.map_cons, List.map_cons, ih r]
      by_cases hin : r.year ∈ rest.map Prod.fst
      · rw [if_pos hin, if_pos (by simp [hin])]
      · rw [if_neg hin, if_neg (by
          simp only [List.mem_cons, hin, or_false]
          exact fun h => hy h.symm)]
        simp

lemma addYear_keys_nodup (l : List (Int × List GRec)) (r : GRec)
    (h : (l.map Prod.fst).Nodup) : ((addYear l r).map Prod.fst).Nodup := by
  rw [addYear_keys]
  by_cases hin : r.year ∈ l.map Prod.fst
  · rw [if_pos hin]
    exact h
  · rw [if_neg hin]
    simp [List.nodup_append, h, hin]

lemma byYear_props (recs : List GRec) :
    ((byYear recs).map Prod.fst).Nodup ∧
      ∀ p ∈ byYear recs, ∀ x ∈ p.2, x.year = p.1 := by
  suffices h : ∀ (rs : List GRec) (l : List (Int × List GRec)),
      (l.map Prod.fst).Nodup → (∀ p ∈ l, ∀ x ∈ p.2, x.year = p.1) →
      ((rs.foldl addYear l).map Prod.fst).Nodup ∧
        ∀ p ∈ rs.foldl addYear l, ∀ x ∈ p.2, x.year = p.1 by
    exact h recs [] (by simp) (by simp)
  intro rs
  induction rs with
  | nil => intro l h1 h2; exact ⟨h1, h2⟩
  | cons r rest ih =>
    intro l h1 h2
    exact ih (addYear l r) (addYear_keys_nodup l r h1) (addYear_years l r h2)

open List in
lemma sortGroups_flat_perm (G : List (Int × List GRec)) :
    (G.map fun p => (p.1, List.insertionSort titleDesc p.2)).flatMap Prod.snd
      ~ G.flatMap Prod.snd := by
  induction G with
  | nil => exact List.Perm.refl _
  | cons p rest ih =>
    rw [List.map_cons, List.flatMap_cons, List.flatMap_cons]
    exact List.Perm.append (List.perm_insertionSort titleDesc p.2) ih

open List in
lemma passageList_flat_perm (orig : GRow) (rows : List GRow) :
    (passageList orig rows).flatMap Prod.snd ~ (filteredTitles orig rows).map Prod.snd := by
  unfold passageList
  refine List.Perm.trans (List.Perm.flatMap_right Prod.snd
    (List.perm_insertionSort yearAsc _)) ?_
  exact List.Perm.trans (sortGroups_flat_perm _) (byYear_flat _)

lemma filtered_vals_min (orig : GRow) (rows : List GRow) :
    ∀ rec ∈ (filteredTitles orig rows).map Prod.snd,
      rec ∈ occurrences orig rows ∧
        ∀ o ∈ occurrences orig rows, o.title = rec.title → rec.year ≤ o.year := by
  intro rec hrec
  obtain ⟨pr, hmem, hrec'⟩ := List.mem_map.mp hrec
  have hinv := titleInv_filtered orig rows
  have hget : mget (filteredTitles orig rows) pr.1 = some pr.2 :=
    mget_of_mem hinv.1 hmem
  have h := hinv.2.1 pr.1 pr.2 hget
  rw [← hrec']
  refine ⟨h.2.1, ?_⟩
  rw [h.1]
  exact h.2.2

lemma filtered_vals_complete (orig : GRow) (rows : List GRow) :
    ∀ o ∈ occurrences orig rows, ∃ rec ∈ (filteredTitles orig rows).map Prod.snd,
      rec.title = o.title := by
  intro o ho
  have hinv := titleInv_filtered orig rows
  obtain ⟨rec, hget⟩ := hinv.2.2 o ho
  have hmem := mem_of_mget hget
  have ht := (hinv.2.1 _ _ hget).1
  exact ⟨rec, List.mem_map.mpr ⟨(o.title, rec), hmem, rfl⟩, ht⟩

lemma filtered_vals_titles_nodup (orig : GRow) (rows : List GRow) :
    (((filteredTitles orig rows).map Prod.snd).map GRec.title).Nodup := by
  have hinv := titleInv_filtered orig rows
  have heq : ((filteredTitles orig rows).map Prod.snd).map GRec.title
      = (filteredTitles orig rows).map Prod.fst := by
    rw [List.map_map]
    refine List.map_congr_left fun p hp => ?_
    have hget := mget_of_mem hinv.1 hp
    exact (hinv.2.1 p.1 p.2 hget).1
  rw [heq]
  exact hinv.1

lemma occurrences_cases (orig : GRow) (rows : List GRow) :
    ∀ o ∈ occurrences orig rows, o.row ∈ rows ∧
      ((o.dir = Side.source ∧ o.title = o.row.source_title ∧ o.year = o.row.source_year ∧
        o.row.source_author ≠ orig.source_author ∧ o.row.source_title ≠ orig.source_title) ∨
       (o.dir = Side.target ∧ o.title = o.row.target_title ∧ o.year = o.row.target_year)) := by
  intro o ho
  obtain ⟨row, hrow, hmem⟩ := List.mem_flatMap.mp ho
  rw [rowRecs] at hmem
  rcases List.mem_append.mp hmem with hmem | hmem
  · by_cases hc : row.source_author ≠ orig.source_author ∧ row.source_title ≠ orig.source_title
    · rw [if_pos hc] at hmem
      simp only [List.mem_singleton] at hmem
      subst hmem
      exact ⟨hrow, Or.inl ⟨rfl, rfl, rfl, hc.1, hc.2⟩⟩
    · rw [if_neg hc] at hmem
      exact absurd hmem (List.not_mem_nil o)
  · simp only [List.mem_singleton] at hmem
    subst hmem
    exact ⟨hrow, Or.inr ⟨rfl, rfl, rfl⟩⟩

lemma target_occurrence (orig : GRow) (rows : List GRow) (row : GRow) (h : row ∈ rows) :
    (⟨row.target_title, row.target_year, Side.target, row⟩ : GRec) ∈ occurrences orig rows := by
  refine List.mem_flatMap.mpr ⟨row, h, ?_⟩
  rw [rowRecs]
  exact List.mem_append_right _ (List.mem_singleton.mpr rfl)

/-! ### Claim C7 -/

/-- C7: the returned passageList holds exactly one canonical record per
distinct occurrence title (titles across the whole list are distinct and
every occurrence's title is represented); each kept record is one of the
candidate records with the earliest year among its title's occurrences; the
source side contributes a record only when its author and title both differ
from the canonical passage's, while the target side of every member row always
contributes its title; records are partitioned by year (every record sits
under its own year), titles are sorted strictly descending within each year,
and the years appear in strictly ascending order. -/
theorem C7_group_resolution :
    ∀ (orig : GRow) (rows : List GRow),
      ((passageList orig rows).map Prod.fst).Pairwise (· < ·) ∧
      (∀ p ∈ passageList orig rows,
        (p.2.map GRec.title).Pairwise (fun a b => b < a) ∧ ∀ rec ∈ p.2, rec.year = p.1) ∧
      (((passageList orig rows).flatMap Prod.snd).map GRec.title).Nodup ∧
      (∀ o ∈ occurrences orig rows, ∃ rec ∈ (passageList orig rows).flatMap Prod.snd,
        rec.title = o.title) ∧
      (∀ rec ∈ (passageList orig rows).flatMap Prod.snd,
        rec ∈ occurrences orig rows ∧
          ∀ o ∈ occurrences orig rows, o.title = rec.title → rec.year ≤ o.year) ∧
      (∀ rec ∈ (passageList orig rows).flatMap Prod.snd, rec.dir = Side.source →
        rec.row ∈ rows ∧ rec.row.source_author ≠ orig.source_author ∧
          rec.row.source_title ≠ orig.source_title) ∧
      (∀ row ∈ rows, ∃ rec ∈ (passageList orig rows).flatMap Prod.snd,
        rec.title = row.target_title) := by
  intro orig rows
  have hflat := passageList_flat_perm orig rows
  have hvals_nodup := filtered_vals_titles_nodup orig rows
  have hGperm : List.Perm (passageList orig rows)
      ((byYear ((filteredTitles orig rows).map Prod.snd)).map
        fun p => (p.1, List.insertionSort titleDesc p.2)) :=
    List.perm_insertionSort yearAsc _
  have hGkeys : (((byYear ((filteredTitles orig rows).map Prod.snd)).map
      fun p => (p.1, List.insertionSort titleDesc p.2)).map Prod.fst)
      = (byYear ((filteredTitles orig rows).map Prod.snd)).map Prod.fst := by
    rw [List.map_map]
    rfl
  have hbyYear := byYear_props ((filteredTitles orig rows).map Prod.snd)
  have hkeys_nodup : ((passageList orig rows).map Prod.fst).Nodup := by
    have hp := hGperm.map Prod.fst
    rw [hGkeys] at hp
    exact (hp.nodup_iff).mpr hbyYear.1
  refine ⟨?_, ?_, ?_, ?_, ?_, ?_, ?_⟩
  · -- years strictly ascending
    have hsorted : (passageList orig rows).Pairwise yearAsc :=
      List.sorted_insertionSort yearAsc _
    have hle : ((passageList orig rows).map Prod.fst).Pairwise (· ≤ ·) :=
      hsorted.map Prod.fst fun a b hab => hab
    have hne : ((passageList orig rows).map Prod.fst).Pairwise (· ≠ ·) := hkeys_nodup
    exact (hle.and hne).imp fun h => lt_of_le_of_ne h.1 h.2
  · -- inside each year group
    intro p hp
    have hpG := hGperm.subset hp
    obtain ⟨q, hq, hq'⟩ := List.mem_map.mp hpG
    subst hq'
    have hsorted : (List.insertionSort titleDesc q.2).Pairwise titleDesc :=
      List.sorted_insertionSort titleDesc q.2
    have hgroup_nodup : ((List.insertionSort titleDesc q.2).map GRec.title).Nodup := by
      have hsub : List.Sublist q.2 (((byYear ((filteredTitles orig rows).map Prod.snd)).map
          Prod.snd).flatten) :=
        List.sublist_flatten_of_mem (List.mem_map.mpr ⟨q, hq, rfl⟩)
      have hflat_titles :
          ((((byYear ((filteredTitles orig rows).map Prod.snd)).map Prod.snd).flatten).map
            GRec.title).Nodup := by
        have hperm2 := (byYear_flat ((filteredTitles orig rows).map Prod.snd)).map GRec.title
        rw [List.flatMap_def] at hperm2
        exact (hperm2.nodup_iff).mpr hvals_nodup
      have hq2 : (q.2.map GRec.title).Nodup := (hsub.map GRec.title).nodup hflat_titles
      have hpm := (List.perm_insertionSort titleDesc q.2).map GRec.title
      exact (hpm.nodup_iff).mpr hq2
    constructor
    · have hge : ((List.insertionSort titleDesc q.2).map GRec.title).Pairwise
          (fun a b => b ≤ a) :=
        hsorted.map GRec.title fun a b hab => hab
      have hne : ((List.insertionSort titleDesc q.2).map GRec.title).Pairwise (· ≠ ·) :=
        hgroup_nodup
      exact (hge.and hne).imp fun h => lt_of_le_of_ne h.1 h.2.symm
    · intro rec hrec
      have hrec2 : rec ∈ q.2 := (List.perm_insertionSort titleDesc q.2).subset hrec
      exact hbyYear.2 q hq rec hrec2
  · -- titles globally distinct
    exact ((hflat.map GRec.title).nodup_iff).mpr hvals_nodup
  · -- every occurrence title is represented
    intro o ho
    obtain ⟨rec, hrec, ht⟩ := filtered_vals_complete orig rows o ho
    exact ⟨rec, hflat.mem_iff.mpr hrec, ht⟩
  · -- kept records are minimal-year occurrences
    intro rec hrec
    exact filtered_vals_min orig rows rec (hflat.subset hrec)
  · -- source-side condition
    intro rec hrec hdir
    have hocc := (filtered_vals_min orig rows rec (hflat.subset hrec)).1
    have hc := occurrences_cases orig rows rec hocc
    rcases hc.2 with hsrc | htgt
    · exact ⟨hc.1, hsrc.2.2.2.1, hsrc.2.2.2.2⟩
    · rw [hdir] at htgt
      exact absurd htgt.1 (by simp)
  · -- the target side always contributes
    intro row hrow
    obtain ⟨rec, hrec, ht⟩ := filtered_vals_complete orig rows _
      (target_occurrence orig rows row hrow)
    exact ⟨rec, hflat.mem_iff.mpr hrec, ht⟩

/-- C7, witness: a single member row whose source author and title differ
from the canonical passage contributes both sides, partitioned into two
ascending year groups. -/
theorem C7_witness :
    ((passageList ⟨"auth", "origT", 1700, "tT", 1800, 0⟩
        [⟨"a1", "s1", 1750, "t1", 1850, 1⟩]).map Prod.fst).Pairwise (· < ·) ∧
      (∃ rec ∈ (passageList ⟨"auth", "origT", 1700, "tT", 1800, 0⟩
          [⟨"a1", "s1", 1750, "t1", 1850, 1⟩]).flatMap Prod.snd, rec.title = "t1") ∧
      passageList ⟨"auth", "origT", 1700, "tT", 1800, 0⟩ [⟨"a1", "s1", 1750, "t1", 1850, 1⟩]
        = [(1750, [⟨"s1", 1750, Side.source, ⟨"a1", "s1", 1750, "t1", 1850, 1⟩⟩]),
           (1850, [⟨"t1", 1850, Side.target, ⟨"a1", "s1", 1750, "t1", 1850, 1⟩⟩])] := by
  refine ⟨(C7_group_resolution ⟨"auth", "origT", 1700, "tT", 1800, 0⟩
      [⟨"a1", "s1", 1750, "t1", 1850, 1⟩]).1, ?_, by decide⟩
  exact (C7_group_resolution ⟨"auth", "origT", 1700, "tT", 1800, 0⟩
      [⟨"a1", "s1", 1750, "t1", 1850, 1⟩]).2.2.2.2.2.2 ⟨"a1", "s1", 1750, "t1", 1850, 1⟩
      (by decide)

end TextPair
